import Mathlib

/-!
Student Registration System (`app.js`).

A shallow embedding of the record manager in `app.js` and theorems about it.

Modelling conventions.

* A JavaScript string is the list of its UTF-16 code units (`JSString`); a code unit is a
  natural number.  Nothing below needs the bound `< 65536`.
* Error messages are string constants of the source and are kept as Lean strings.
* The module-level variables `students`, `editingIndex`, the storage slot
  `localStorage[STORAGE_KEY]` and the DOM properties that the script reads or writes
  (input values, error elements, button label, cancel button visibility) form the `State`.
* `renderTable` and `applyDynamicScrollbar` only write table markup and style properties that
  the script never reads back; they are left out of the state.
* Array lengths stay below the ECMAScript limit `2^32 - 1` and `localStorage.setItem` does
  not run out of quota.
-/

namespace StudentRegistration

/-! ## Strings -/

/-- A JavaScript string as its sequence of UTF-16 code units. -/
abbrev JSString := List Nat

/-- UTF-16 encoding of one Unicode scalar value. -/
def utf16 (c : Char) : List Nat :=
  if c.toNat < 0x10000 then [c.toNat]
  else [0xD800 + (c.toNat - 0x10000) / 0x400, 0xDC00 + (c.toNat - 0x10000) % 0x400]

/-- The JavaScript string written by a literal. -/
def js (s : String) : JSString := s.toList.flatMap utf16

/-- ECMAScript `WhiteSpace` and `LineTerminator` code units: what `String.prototype.trim`
strips and what the regular expression escape `\s` matches. -/
def isWhiteSpace (c : Nat) : Bool :=
  c == 0x09 || c == 0x0A || c == 0x0B || c == 0x0C || c == 0x0D || c == 0x20 ||
  c == 0xA0 || c == 0x1680 || (0x2000 ≤ c && c ≤ 0x200A) || c == 0x2028 || c == 0x2029 ||
  c == 0x202F || c == 0x205F || c == 0x3000 || c == 0xFEFF

/-- The regular expression class `[a-zA-Z]`. -/
def isAsciiLetter (c : Nat) : Bool :=
  (0x61 ≤ c && c ≤ 0x7A) || (0x41 ≤ c && c ≤ 0x5A)

/-- The regular expression class `[a-zA-Z\s]`. -/
def isNameChar (c : Nat) : Bool :=
  isAsciiLetter c || isWhiteSpace c

/-- The regular expression escape `\d` (without the `u` flag): `[0-9]`. -/
def isDigit (c : Nat) : Bool :=
  0x30 ≤ c && c ≤ 0x39

/-- Removal of leading white space, the first half of `trim`. -/
def trimStart (s : JSString) : JSString :=
  s.dropWhile isWhiteSpace

/-- Removal of trailing white space, the second half of `trim`. -/
def trimEnd (s : JSString) : JSString :=
  (s.reverse.dropWhile isWhiteSpace).reverse

/-- The method `String.prototype.trim`. -/
def trim (s : JSString) : JSString :=
  trimEnd (trimStart s)

/-- The test `/^[C]+$/.test(s)` for a character class `C`: the pattern is anchored at both
ends (no `m` flag), so it matches when `s` is one or more code units, all of them in `C`. -/
def testClassPlus (C : Nat → Bool) (s : JSString) : Bool :=
  !s.isEmpty && s.all C

/-! ## Field validators -/

/-- The object returned by a validator: `{ valid: false, message }` or `{ valid: true }`. -/
structure ValidationResult where
  valid : Bool
  message : Option String
deriving DecidableEq

/-- The function `validateName`; `none` is an absent (`undefined`/`null`) argument, which
`(value || '')` turns into the empty string. -/
def validateName (value : Option JSString) : ValidationResult :=
  let trimmed := trim (value.getD [])
  if trimmed.isEmpty then { valid := false, message := some "Name is required." }
  else if !testClassPlus isNameChar trimmed then
    { valid := false, message := some "Name must contain only letters and spaces." }
  else { valid := true, message := none }

/-- The function `validateStudentId`. -/
def validateStudentId (value : Option JSString) : ValidationResult :=
  let trimmed := trim (value.getD [])
  if trimmed.isEmpty then { valid := false, message := some "Student ID is required." }
  else if !testClassPlus isDigit trimmed then
    { valid := false, message := some "Student ID must contain only numbers." }
  else { valid := true, message := none }

/-- The function `validateClass`. -/
def validateClass (value : Option JSString) : ValidationResult :=
  let trimmed := trim (value.getD [])
  if trimmed.isEmpty then { valid := false, message := some "Class is required." }
  else { valid := true, message := none }

/-- The function `validateRollNo`. -/
def validateRollNo (value : Option JSString) : ValidationResult :=
  let trimmed := trim (value.getD [])
  if trimmed.isEmpty then { valid := false, message := some "Roll No. is required." }
  else if !testClassPlus isDigit trimmed then
    { valid := false, message := some "Roll No. must contain only numbers." }
  else { valid := true, message := none }

/-! ## Records and the `students` array -/

/-- One student record, the object literal built by the submit handler.  The field `cls`
is the property `class`. -/
structure Record where
  name : JSString
  studentId : JSString
  cls : JSString
  rollNo : JSString
deriving DecidableEq

/-- The array held by `students`.  `elems` are the indexed elements `0 .. length - 1`, where
`none` is a hole (an index that reads as `undefined`); `extra` are the own properties whose
key is not an array index (a negative integer, or an integer from `2^32 - 1` on), which an
assignment `students[k] = record` with such a `k` creates without touching the elements or
the length. -/
structure JSArray where
  elems : List (Option Record)
  extra : List (Int × Record)
deriving DecidableEq

/-- The bound `2^32 - 1` of ECMAScript arrays: the largest length, and the first
non-negative integer that is not an array index. -/
def maxLength : Nat := 4294967295

namespace JSArray

/-- The array whose elements are the records of `l`, in order, and nothing else. -/
def ofList (l : List Record) : JSArray :=
  { elems := l.map some, extra := [] }

/-- The property `length`. -/
def length (a : JSArray) : Nat :=
  a.elems.length

/-- The read `a[k]`: `none` is `undefined`.  The keys below the length are the elements;
any other key is looked up among the ordinary properties. -/
def get (a : JSArray) (k : Int) : Option Record :=
  if 0 ≤ k ∧ k.toNat < a.elems.length then a.elems.getD k.toNat none
  else (a.extra.find? (fun p => p.1 == k)).map (fun p => p.2)

/-- The assignment `a[k] = r`.  An index below the length overwrites that element; an array
index (an integer in `0 .. 2^32 - 2`) at or past the length extends the array to length
`k + 1`, leaving holes at the indices in between; any other key (negative, or from `2^32 - 1`
on) sets an ordinary property and leaves the elements and the length as they are. -/
def set (a : JSArray) (k : Int) (r : Record) : JSArray :=
  if 0 ≤ k ∧ k.toNat < a.elems.length then { a with elems := a.elems.set k.toNat (some r) }
  else if 0 ≤ k ∧ k < (maxLength : Int) then
    { a with elems := a.elems ++ List.replicate (k.toNat - a.elems.length) none ++ [some r] }
  else { a with extra := (k, r) :: a.extra.filter (fun p => p.1 != k) }

/-- The call `a.push(r)`. -/
def push (a : JSArray) (r : Record) : JSArray :=
  { a with elems := a.elems ++ [some r] }

/-- The call `a.splice(start, deleteCount)` with no items to insert: a negative `start`
counts from the end, the start is clamped to `0 .. length`, and at most the elements that
remain from there are removed. -/
def splice (a : JSArray) (start : Int) (deleteCount : Nat) : JSArray :=
  let len := a.elems.length
  let actualStart : Nat := if start < 0 then ((len : Int) + start).toNat else min start.toNat len
  let actualDeleteCount : Nat := min deleteCount (len - actualStart)
  { a with elems := a.elems.take actualStart ++ a.elems.drop (actualStart + actualDeleteCount) }

end JSArray

/-! ## `JSON.stringify` of the `students` array -/

/-- Lower-case hexadecimal digit of a value below sixteen. -/
def hexDigit (n : Nat) : Nat :=
  if n < 10 then 0x30 + n else 0x61 + (n - 10)

/-- The escape `\uXXXX` of a code unit (`UnicodeEscape`). -/
def unicodeEscape (c : Nat) : JSString :=
  [0x5C, 0x75, hexDigit (c / 4096 % 16), hexDigit (c / 256 % 16), hexDigit (c / 16 % 16),
    hexDigit (c % 16)]

/-- Leading (high) surrogate code unit. -/
def isLeadSurrogate (c : Nat) : Bool :=
  0xD800 ≤ c && c ≤ 0xDBFF

/-- Trailing (low) surrogate code unit. -/
def isTrailSurrogate (c : Nat) : Bool :=
  0xDC00 ≤ c && c ≤ 0xDFFF

/-- The output of `QuoteJSONString` for one code point that is a single code unit and not
half of a surrogate pair. -/
def quoteUnit (c : Nat) : JSString :=
  if c = 0x08 then [0x5C, 0x62]
  else if c = 0x09 then [0x5C, 0x74]
  else if c = 0x0A then [0x5C, 0x6E]
  else if c = 0x0C then [0x5C, 0x66]
  else if c = 0x0D then [0x5C, 0x72]
  else if c = 0x22 then [0x5C, 0x22]
  else if c = 0x5C then [0x5C, 0x5C]
  else if c < 0x20 || isLeadSurrogate c || isTrailSurrogate c then unicodeEscape c
  else [c]

/-- The body of `QuoteJSONString`, between the two quotation marks: the string is read code
point by code point, so a leading surrogate followed by a trailing one is copied as a pair
and any other surrogate is escaped. -/
def quoteChars : JSString → JSString
  | [] => []
  | [c] => quoteUnit c
  | c :: d :: rest =>
    if isLeadSurrogate c && isTrailSurrogate d then c :: d :: quoteChars rest
    else quoteUnit c ++ quoteChars (d :: rest)

/-- The operation `QuoteJSONString`. -/
def quoteJSONString (s : JSString) : JSString :=
  [0x22] ++ quoteChars s ++ [0x22]

/-- The text `JSON.stringify` gives for a record: its four properties in creation order. -/
def stringifyRecord (r : Record) : JSString :=
  js "\x7b" ++ quoteJSONString (js "name") ++ js ":" ++ quoteJSONString r.name ++
  js "," ++ quoteJSONString (js "studentId") ++ js ":" ++ quoteJSONString r.studentId ++
  js "," ++ quoteJSONString (js "class") ++ js ":" ++ quoteJSONString r.cls ++
  js "," ++ quoteJSONString (js "rollNo") ++ js ":" ++ quoteJSONString r.rollNo ++ js "\x7d"

/-- The text of one array element: a hole is written `null`. -/
def stringifyElem : Option Record → JSString
  | none => js "null"
  | some r => stringifyRecord r

/-- The elements of an array joined by commas. -/
def joinElems : List JSString → JSString
  | [] => []
  | [x] => x
  | x :: y :: rest => x ++ js "," ++ joinElems (y :: rest)

/-- The call `JSON.stringify(students)`: the indexed elements only. -/
def stringify (a : JSArray) : JSString :=
  js "[" ++ joinElems (a.elems.map stringifyElem) ++ js "]"

/-! ## Program state -/

/-- The values of the four form inputs `nameInput`, `idInput`, `classInput`, `rollNoInput`. -/
structure Form where
  name : JSString
  id : JSString
  cls : JSString
  rollNo : JSString
deriving DecidableEq

/-- An error element: its `textContent` and whether its class list holds `hidden`. -/
structure ErrorEl where
  textContent : String
  hidden : Bool
deriving DecidableEq

/-- The four error elements of `errorEls`, by key. -/
structure Errors where
  name : ErrorEl
  id : ErrorEl
  cls : ErrorEl
  rollNo : ErrorEl
deriving DecidableEq

/-- The keys of `errorEls`. -/
inductive Field where
  | name
  | id
  | cls
  | rollNo
deriving DecidableEq

/-- Everything the script reads and writes. -/
structure State where
  /-- Module variable `students`. -/
  students : JSArray
  /-- Module variable `editingIndex`; `none` is `null`. -/
  editingIndex : Option Int
  /-- The slot `localStorage[STORAGE_KEY]`; `none` when the key is absent. -/
  storage : Option JSString
  /-- Current values of the inputs. -/
  form : Form
  /-- Default values of the inputs, which `form.reset()` restores. -/
  formDefault : Form
  /-- The error elements. -/
  errors : Errors
  /-- Text of the submit button. -/
  submitLabel : String
  /-- Whether the cancel button carries the class `hidden`. -/
  cancelHidden : Bool
deriving DecidableEq

/-- A thrown JavaScript exception. -/
inductive JSError where
  | typeError
deriving DecidableEq

/-- The function `saveAndRender`: writes the serialized array to the storage slot. -/
def saveAndRender (s : State) : State :=
  { s with storage := some (stringify s.students) }

/-- The function `showError`: sets the text of one error element and hides it exactly when
the message is empty. -/
def showError (s : State) (field : Field) (message : String) : State :=
  let el : ErrorEl := { textContent := message, hidden := message.isEmpty }
  match field with
  | .name => { s with errors := { s.errors with name := el } }
  | .id => { s with errors := { s.errors with id := el } }
  | .cls => { s with errors := { s.errors with cls := el } }
  | .rollNo => { s with errors := { s.errors with rollNo := el } }

/-- The function `clearAllErrors`: `showError(key, '')` for each key of `errorEls`. -/
def clearAllErrors (s : State) : State :=
  [Field.name, Field.id, Field.cls, Field.rollNo].foldl (fun st key => showError st key "") s

/-- The text `validateForm` hands to `showError`: `r.valid ? '' : r.message`. -/
def errorText (r : ValidationResult) : String :=
  if r.valid then "" else r.message.getD ""

/-- The function `validateForm`: the state with the four error elements set, and the
returned boolean. -/
def validateForm (s : State) : State × Bool :=
  let rName := validateName (some s.form.name)
  let rId := validateStudentId (some s.form.id)
  let rClass := validateClass (some s.form.cls)
  let rRollNo := validateRollNo (some s.form.rollNo)
  let s1 := showError s .name (errorText rName)
  let s2 := showError s1 .id (errorText rId)
  let s3 := showError s2 .cls (errorText rClass)
  let s4 := showError s3 .rollNo (errorText rRollNo)
  (s4, rName.valid && rId.valid && rClass.valid && rRollNo.valid)

/-- The function `hasEmptyFields`. -/
def hasEmptyFields (s : State) : Bool :=
  (trim s.form.name).isEmpty || (trim s.form.id).isEmpty || (trim s.form.cls).isEmpty ||
  (trim s.form.rollNo).isEmpty

/-- The function `clearForm`. -/
def clearForm (s : State) : State :=
  let s1 := { s with form := s.formDefault }
  let s2 := clearAllErrors s1
  { s2 with editingIndex := none, submitLabel := "Add", cancelHidden := true }

/-- The function `startEdit`.  Reading `s.name` of an `undefined` element throws a
`TypeError` before anything is written. -/
def startEdit (s : State) (index : Int) : Except JSError State :=
  match s.students.get index with
  | none => .error .typeError
  | some r =>
    let s1 := { s with form := { name := r.name, id := r.studentId, cls := r.cls, rollNo := r.rollNo } }
    let s2 := { s1 with editingIndex := some index, submitLabel := "Update", cancelHidden := false }
    .ok (clearAllErrors s2)

/-- The function `deleteRecord`. -/
def deleteRecord (s : State) (index : Int) : State :=
  let s1 := { s with students := s.students.splice index 1 }
  let s2 := saveAndRender s1
  if s2.editingIndex = some index then clearForm s2
  else
    match s2.editingIndex with
    | some e => if e > index then { s2 with editingIndex := some (e - 1) } else s2
    | none => s2

/-- The object literal `record` of the submit handler. -/
def buildRecord (f : Form) : Record :=
  { name := trim f.name, studentId := trim f.id, cls := trim f.cls, rollNo := trim f.rollNo }

/-- The aggregate message of the submit handler. -/
def allFieldsRequired : String :=
  "All fields are required. Cannot add an empty record."

/-- The submit handler of the form. -/
def submit (s : State) : State :=
  if hasEmptyFields s then
    showError (clearAllErrors s) .name allFieldsRequired
  else
    let (s1, ok) := validateForm s
    if !ok then s1
    else
      let record := buildRecord s1.form
      let s2 :=
        match s1.editingIndex with
        | some i => { s1 with students := s1.students.set i record }
        | none => { s1 with students := s1.students.push record }
      clearForm (saveAndRender s2)

/-- The click handler of the cancel button. -/
def cancel (s : State) : State :=
  clearForm s

/-! ## `JSON.parse` and `loadFromStorage` -/

/-- A value produced by `JSON.parse`.  A number is kept as its literal text (the rounding
of the literal to a double is not modelled); an object is the list of its members in the
order in which its keys are enumerated: the array-index keys in ascending order, then the
other keys in order of creation. -/
inductive JVal where
  | null : JVal
  | bool (b : Bool) : JVal
  | num (literal : JSString) : JVal
  | str (s : JSString) : JVal
  | arr (items : List JVal) : JVal
  | obj (members : List (JSString × JVal)) : JVal

/-- The four white space code units of the JSON grammar. -/
def isJSONWhiteSpace (c : Nat) : Bool :=
  c == 0x09 || c == 0x0A || c == 0x0D || c == 0x20

/-- Skips JSON white space. -/
def skipWS (s : JSString) : JSString :=
  s.dropWhile isJSONWhiteSpace

/-- Value of a hexadecimal digit, of either case. -/
def hexValue (c : Nat) : Option Nat :=
  if 0x30 ≤ c ∧ c ≤ 0x39 then some (c - 0x30)
  else if 0x61 ≤ c ∧ c ≤ 0x66 then some (c - 0x61 + 10)
  else if 0x41 ≤ c ∧ c ≤ 0x46 then some (c - 0x41 + 10)
  else none

/-- The code unit denoted by the single-character escape after a backslash. -/
def escapeValue (e : Nat) : Option Nat :=
  if e = 0x22 then some 0x22
  else if e = 0x5C then some 0x5C
  else if e = 0x2F then some 0x2F
  else if e = 0x62 then some 0x08
  else if e = 0x66 then some 0x0C
  else if e = 0x6E then some 0x0A
  else if e = 0x72 then some 0x0D
  else if e = 0x74 then some 0x09
  else none

/-- Reads a JSON string after its opening quotation mark: the string value and the input
left after the closing quotation mark.  Control characters below U+0020 are refused. -/
def parseStringBody : JSString → Option (JSString × JSString)
  | [] => none
  | c :: rest =>
    if c = 0x22 then some ([], rest)
    else if c = 0x5C then
      match rest with
      | [] => none
      | e :: rest1 =>
        if e = 0x75 then
          match rest1 with
          | h1 :: h2 :: h3 :: h4 :: rest2 =>
            match hexValue h1, hexValue h2, hexValue h3, hexValue h4 with
            | some a, some b, some c3, some d =>
              (parseStringBody rest2).map
                (fun p => ((a * 4096 + b * 256 + c3 * 16 + d) :: p.1, p.2))
            | _, _, _, _ => none
          | _ => none
        else
          match escapeValue e with
          | some v => (parseStringBody rest1).map (fun p => (v :: p.1, p.2))
          | none => none
    else if c < 0x20 then none
    else (parseStringBody rest).map (fun p => (c :: p.1, p.2))

/-- One or more decimal digits: the digits and the input after them. -/
def parseDigits (s : JSString) : Option (JSString × JSString) :=
  if (s.takeWhile isDigit).isEmpty then none
  else some (s.takeWhile isDigit, s.dropWhile isDigit)

/-- The integer part of a JSON number: `0`, or a non-zero digit followed by digits. -/
def parseInt (s : JSString) : Option (JSString × JSString) :=
  match s with
  | c :: rest => if c = 0x30 then some ([0x30], rest) else parseDigits (c :: rest)
  | [] => none

/-- The optional fraction of a JSON number. -/
def parseFrac (s : JSString) : Option (JSString × JSString) :=
  match s with
  | c :: rest =>
    if c = 0x2E then (parseDigits rest).map (fun p => (0x2E :: p.1, p.2)) else some ([], s)
  | [] => some ([], s)

/-- The optional exponent of a JSON number. -/
def parseExp (s : JSString) : Option (JSString × JSString) :=
  match s with
  | c :: rest =>
    if c = 0x65 ∨ c = 0x45 then
      match rest with
      | sg :: rest1 =>
        if sg = 0x2B ∨ sg = 0x2D then (parseDigits rest1).map (fun p => (c :: sg :: p.1, p.2))
        else (parseDigits rest).map (fun p => (c :: p.1, p.2))
      | [] => none
    else some ([], s)
  | [] => some ([], s)

/-- A JSON number without its sign: literal text and remaining input. -/
def parseUnsigned (s : JSString) : Option (JSString × JSString) :=
  match parseInt s with
  | none => none
  | some (i, r1) =>
    match parseFrac r1 with
    | none => none
    | some (f, r2) =>
      match parseExp r2 with
      | none => none
      | some (e, r3) => some (i ++ f ++ e, r3)

/-- A JSON number: literal text and remaining input. -/
def parseNumber (s : JSString) : Option (JSString × JSString) :=
  match s with
  | c :: rest =>
    if c = 0x2D then (parseUnsigned rest).map (fun p => (0x2D :: p.1, p.2)) else parseUnsigned s
  | [] => none

/-- The array index a property key denotes, if it denotes one: the key is `0` or a string
of decimal digits without a leading zero, and its value is below `2^32 - 1`. -/
def arrayIndexOfKey (k : JSString) : Option Nat :=
  match k with
  | [] => none
  | c :: rest =>
    if (c :: rest).all isDigit && (c != 0x30 || rest.isEmpty) then
      if (c :: rest).foldl (fun acc d => acc * 10 + (d - 0x30)) 0 < maxLength then
        some ((c :: rest).foldl (fun acc d => acc * 10 + (d - 0x30)) 0)
      else none
    else none

/-- Whether a member comes before a new array-index key `n` in the order of enumeration: it
has an array-index key of smaller value. -/
def precedesIndex (n : Nat) (p : JSString × JVal) : Bool :=
  match arrayIndexOfKey p.1 with
  | some m => decide (m < n)
  | none => false

/-- Adds a member with a new key at its place in the order of enumeration: an array-index
key goes after the smaller array-index keys and before everything else, any other key goes
last. -/
def insertMember (ms : List (JSString × JVal)) (k : JSString) (v : JVal) :
    List (JSString × JVal) :=
  match arrayIndexOfKey k with
  | none => ms ++ [(k, v)]
  | some n => ms.takeWhile (precedesIndex n) ++ (k, v) :: ms.dropWhile (precedesIndex n)

/-- Defines member `k` of an object under construction: a repeated key keeps its place and
takes the later value, a new key is placed by `insertMember`. -/
def setMember (ms : List (JSString × JVal)) (k : JSString) (v : JVal) :
    List (JSString × JVal) :=
  if ms.any (fun p => p.1 == k) then ms.map (fun p => if p.1 == k then (k, v) else p)
  else insertMember ms k v

/-- What the recursive descent is reading: a value, the elements of an array after `[` or a
comma, or the members of an object after `{` or a comma. -/
inductive Mode where
  | value : Mode
  | elems (acc : List JVal) : Mode
  | members (acc : List (JSString × JVal)) : Mode

/-- Recursive descent over JSON text, bounded by `fuel` nested calls: the value read and
the input left after it, or `none` on a syntax error. -/
def parseAux : Nat → Mode → JSString → Option (JVal × JSString)
  | 0, _, _ => none
  | fuel + 1, .value, s =>
    match skipWS s with
    | [] => none
    | c :: rest =>
      if c = 0x5B then
        match skipWS rest with
        | [] => none
        | d :: rest1 =>
          if d = 0x5D then some (.arr [], rest1) else parseAux fuel (.elems []) (d :: rest1)
      else if c = 0x7B then
        match skipWS rest with
        | [] => none
        | d :: rest1 =>
          if d = 0x7D then some (.obj [], rest1) else parseAux fuel (.members []) (d :: rest1)
      else if c = 0x22 then (parseStringBody rest).map (fun p => (.str p.1, p.2))
      else if c = 0x74 then
        match rest with
        | 0x72 :: 0x75 :: 0x65 :: rest1 => some (.bool true, rest1)
        | _ => none
      else if c = 0x66 then
        match rest with
        | 0x61 :: 0x6C :: 0x73 :: 0x65 :: rest1 => some (.bool false, rest1)
        | _ => none
      else if c = 0x6E then
        match rest with
        | 0x75 :: 0x6C :: 0x6C :: rest1 => some (.null, rest1)
        | _ => none
      else (parseNumber (c :: rest)).map (fun p => (.num p.1, p.2))
  | fuel + 1, .elems acc, s =>
    match parseAux fuel .value s with
    | none => none
    | some (v, r) =>
      match skipWS r with
      | [] => none
      | c :: rest =>
        if c = 0x2C then parseAux fuel (.elems (acc ++ [v])) rest
        else if c = 0x5D then some (.arr (acc ++ [v]), rest)
        else none
  | fuel + 1, .members acc, s =>
    match skipWS s with
    | [] => none
    | q :: r0 =>
      if q = 0x22 then
        match parseStringBody r0 with
        | none => none
        | some (k, r1) =>
          match skipWS r1 with
          | [] => none
          | c :: r2 =>
            if c = 0x3A then
              match parseAux fuel .value r2 with
              | none => none
              | some (v, r3) =>
                match skipWS r3 with
                | [] => none
                | d :: r4 =>
                  if d = 0x2C then parseAux fuel (.members (setMember acc k v)) r4
                  else if d = 0x7D then some (.obj (setMember acc k v), r4)
                  else none
            else none
      else none

/-- The call `JSON.parse(text)`: the value, or `none` when a `SyntaxError` is thrown.  The
fuel is chosen above the depth of nested calls a text of this length can cause: of two
successive nested calls at least one consumes a code unit. -/
def jsonParse (text : JSString) : Option JVal :=
  match parseAux (2 * text.length + 2) .value text with
  | none => none
  | some (v, rest) => if (skipWS rest).isEmpty then some v else none

/-- The function `loadFromStorage`, as the value it assigns to `students` given the content
of the storage slot: `raw ? JSON.parse(raw) : []`, and `[]` when parsing throws. -/
def loadFromStorage (raw : Option JSString) : JVal :=
  match raw with
  | none => .arr []
  | some text =>
    if text.isEmpty then .arr []
    else
      match jsonParse text with
      | some v => v
      | none => .arr []

/-- The value `JSON.parse` builds for the text of a record. -/
def recordValue (r : Record) : JVal :=
  .obj [(js "name", .str r.name), (js "studentId", .str r.studentId),
    (js "class", .str r.cls), (js "rollNo", .str r.rollNo)]

/-- The array value whose elements are the records of `l`. -/
def arrayValue (l : List Record) : JVal :=
  .arr (l.map recordValue)

/-! ## Auxiliary definitions for the statements -/

/-- The error elements after `clearAllErrors`. -/
def noErrors : Errors :=
  { name := ⟨"", true⟩, id := ⟨"", true⟩, cls := ⟨"", true⟩, rollNo := ⟨"", true⟩ }

/-- All four validators accept the current form values. -/
def formValid (f : Form) : Prop :=
  (validateName (some f.name)).valid = true ∧ (validateStudentId (some f.id)).valid = true ∧
  (validateClass (some f.cls)).valid = true ∧ (validateRollNo (some f.rollNo)).valid = true

instance (f : Form) : Decidable (formValid f) := by
  unfold formValid
  infer_instance

/-- A record passes all four field validators. -/
def validRecord (r : Record) : Prop :=
  (validateName (some r.name)).valid = true ∧ (validateStudentId (some r.studentId)).valid = true ∧
  (validateClass (some r.cls)).valid = true ∧ (validateRollNo (some r.rollNo)).valid = true

instance (r : Record) : Decidable (validRecord r) := by
  unfold validRecord
  infer_instance

/-- A form with four empty inputs. -/
def blankForm : Form :=
  { name := [], id := [], cls := [], rollNo := [] }

/-- A state holding the records of `L`, the edit cursor `cursor` and the form values `f`,
with the storage slot in step with the list and no error shown. -/
def sampleState (L : List Record) (cursor : Option Int) (f : Form) : State :=
  { students := JSArray.ofList L, editingIndex := cursor,
    storage := some (stringify (JSArray.ofList L)), form := f, formDefault := blankForm,
    errors := noErrors, submitLabel := if cursor.isSome then "Update" else "Add",
    cancelHidden := cursor.isNone }

/-- Sample record with leading zeros in its numeric fields. -/
def bond : Record :=
  { name := js "James Bond", studentId := js "007", cls := js "MI6", rollNo := js "007" }

/-- Sample record of the specification. -/
def janeDoe : Record :=
  { name := js "Jane Doe", studentId := js "101", cls := js "10A", rollNo := js "5" }

/-- A third sample record. -/
def alan : Record :=
  { name := js "Alan Turing", studentId := js "1912", cls := js "K", rollNo := js "23" }

/-- Sample form values that pass the four validators. -/
def adaForm : Form :=
  { name := js "Ada Lovelace", id := js "1815", cls := js "12B", rollNo := js "36" }

/-- The record built from `adaForm`. -/
def ada : Record :=
  { name := js "Ada Lovelace", studentId := js "1815", cls := js "12B", rollNo := js "36" }

/-- A user action: the three handlers wired to the page, the row buttons with the index
they pass, and typing into the form. -/
inductive Action where
  | submit : Action
  | startEdit (index : Int) : Action
  | cancel : Action
  | deleteRecord (index : Int) : Action
  | input (f : Form) : Action

/-- The state after one action.  An exception thrown by `startEdit` ends that handler and
leaves the state as it was, since it is thrown before any write. -/
def step (s : State) : Action → State
  | .submit => submit s
  | .startEdit index =>
    match startEdit s index with
    | .ok s1 => s1
    | .error _ => s
  | .cancel => cancel s
  | .deleteRecord index => deleteRecord s index
  | .input f => { s with form := f }

/-- The state after a sequence of actions. -/
def run (s : State) (actions : List Action) : State :=
  actions.foldl step s

/-- The invariant kept by every action: the array has no hole, every record in it (and
every record stored as an ordinary property) passes the four validators, a held edit cursor
is below the length, and every ordinary property has a negative key. -/
def Inv (s : State) : Prop :=
  (∀ e ∈ s.students.elems, ∃ r, e = some r ∧ validRecord r) ∧
  (∀ p ∈ s.students.extra, validRecord p.2 ∧ p.1 < 0) ∧
  (∀ c, s.editingIndex = some c → c < (s.students.elems.length : Int))

/-- The index an action passes is a valid position of the current array; the two handlers
without an index and typing are always possible. -/
def actionValid (s : State) : Action → Prop
  | .startEdit index => 0 ≤ index ∧ index < (s.students.length : Int)
  | .deleteRecord index => 0 ≤ index ∧ index < (s.students.length : Int)
  | _ => True

/-- Every action of the sequence passes a valid index at the moment it runs. -/
def validRun : State → List Action → Prop
  | _, [] => True
  | s, a :: rest => actionValid s a ∧ validRun (step s a) rest

instance (s : State) (a : Action) : Decidable (actionValid s a) :=
  match a with
  | .submit => isTrue trivial
  | .startEdit index =>
    inferInstanceAs (Decidable (0 ≤ index ∧ index < (s.students.length : Int)))
  | .cancel => isTrue trivial
  | .deleteRecord index =>
    inferInstanceAs (Decidable (0 ≤ index ∧ index < (s.students.length : Int)))
  | .input _ => isTrue trivial

/-- Decision procedure for `validRun`. -/
def validRunDecidable : (s : State) → (actions : List Action) → Decidable (validRun s actions)
  | _, [] => isTrue trivial
  | s, a :: rest =>
    have := validRunDecidable (step s a) rest
    inferInstanceAs (Decidable (actionValid s a ∧ validRun (step s a) rest))

instance (s : State) (actions : List Action) : Decidable (validRun s actions) :=
  validRunDecidable s actions

/-- A held edit cursor is a valid index of the array. -/
def CursorInv (s : State) : Prop :=
  ∀ c, s.editingIndex = some c → 0 ≤ c ∧ c < (s.students.length : Int)

/-- The four fields of a record are unchanged by `trim`. -/
def trimmedRecord (r : Record) : Prop :=
  trim r.name = r.name ∧ trim r.studentId = r.studentId ∧ trim r.cls = r.cls ∧
  trim r.rollNo = r.rollNo

/-- Every record of the array is trimmed. -/
def TrimInv (s : State) : Prop :=
  ∀ r, some r ∈ s.students.elems → trimmedRecord r

/-- The array has no hole. -/
def NoHoles (s : State) : Prop :=
  ∀ e ∈ s.students.elems, e ≠ none

/-! ## Validators: theorems -/

theorem testClassPlus_eq_true (C : Nat → Bool) (s : JSString) :
    testClassPlus C s = true ↔ s ≠ [] ∧ ∀ c ∈ s, C c = true := by
  cases s <;> simp [testClassPlus]

theorem isNameChar_iff (c : Nat) :
    isNameChar c = true ↔
      ((0x61 ≤ c ∧ c ≤ 0x7A) ∨ (0x41 ≤ c ∧ c ≤ 0x5A)) ∨ isWhiteSpace c = true := by
  simp [isNameChar, isAsciiLetter]

theorem isDigit_iff (c : Nat) : isDigit c = true ↔ 0x30 ≤ c ∧ c ≤ 0x39 := by
  simp [isDigit]

/-- C4: `validateName` returns valid for the name `A<TAB>B`, although its trimmed value
contains a tab, which is neither a letter `a-z`, `A-Z` nor the space character U+0020: the
class `\s` of the pattern accepts every white space character, not only the space. -/
theorem validateName_accepts_tab :
    (validateName (some (js "A\tB"))).valid = true ∧
      ¬ (∀ c ∈ trim (js "A\tB"),
          (0x61 ≤ c ∧ c ≤ 0x7A) ∨ (0x41 ≤ c ∧ c ≤ 0x5A) ∨ c = 0x20) := by
  decide

/-- What `validateName` computes: valid exactly when the trimmed value is non-empty and every
code unit of it is a letter `a-z`, `A-Z` or a white space character of the class `\s`; the
message "Name is required." for a trimmed-empty or absent value, and "Name must contain only
letters and spaces." for a non-empty trimmed value with any other code unit. -/
theorem validateName_cases (v : Option JSString) :
    ((validateName v).valid = true ↔
      trim (v.getD []) ≠ [] ∧
        ∀ c ∈ trim (v.getD []),
          ((0x61 ≤ c ∧ c ≤ 0x7A) ∨ (0x41 ≤ c ∧ c ≤ 0x5A)) ∨ isWhiteSpace c = true) ∧
    (trim (v.getD []) = [] →
      validateName v = { valid := false, message := some "Name is required." }) ∧
    (trim (v.getD []) ≠ [] →
      (∃ c ∈ trim (v.getD []),
          ¬ (((0x61 ≤ c ∧ c ≤ 0x7A) ∨ (0x41 ≤ c ∧ c ≤ 0x5A)) ∨ isWhiteSpace c = true)) →
      validateName v =
        { valid := false, message := some "Name must contain only letters and spaces." }) := by
  have key := testClassPlus_eq_true isNameChar (trim (v.getD []))
  simp only [isNameChar_iff] at key
  by_cases h : trim (v.getD []) = []
  · simp [validateName, h]
  · by_cases ht : testClassPlus isNameChar (trim (v.getD [])) = true
    · have hall := (key.mp ht).2
      refine ⟨?_, fun h0 => absurd h0 h, fun _ hex => ?_⟩
      · simp only [validateName, List.isEmpty_iff, h, ht]
        simpa using ⟨h, hall⟩
      · obtain ⟨c, hc, hn⟩ := hex
        exact absurd (hall c hc) hn
    · have hnot : ¬ ∀ c ∈ trim (v.getD []),
          ((0x61 ≤ c ∧ c ≤ 0x7A) ∨ (0x41 ≤ c ∧ c ≤ 0x5A)) ∨ isWhiteSpace c = true :=
        fun hall => ht (key.mpr ⟨h, hall⟩)
      refine ⟨?_, fun h0 => absurd h0 h, fun _ _ => ?_⟩
      · simp only [validateName, List.isEmpty_iff, h, ht]
        simp [hnot]
      · simp [validateName, List.isEmpty_iff, h, ht]

theorem validateStudentId_cases (v : Option JSString) :
    ((validateStudentId v).valid = true ↔
      trim (v.getD []) ≠ [] ∧ ∀ c ∈ trim (v.getD []), 0x30 ≤ c ∧ c ≤ 0x39) ∧
    (trim (v.getD []) = [] →
      validateStudentId v = { valid := false, message := some "Student ID is required." }) ∧
    (trim (v.getD []) ≠ [] → (∃ c ∈ trim (v.getD []), ¬ (0x30 ≤ c ∧ c ≤ 0x39)) →
      validateStudentId v =
        { valid := false, message := some "Student ID must contain only numbers." }) := by
  have key := testClassPlus_eq_true isDigit (trim (v.getD []))
  simp only [isDigit_iff] at key
  by_cases h : trim (v.getD []) = []
  · simp [validateStudentId, h]
  · by_cases ht : testClassPlus isDigit (trim (v.getD [])) = true
    · have hall := (key.mp ht).2
      refine ⟨?_, fun h0 => absurd h0 h, fun _ hex => ?_⟩
      · simp only [validateStudentId, List.isEmpty_iff, h, ht]
        simpa using ⟨h, hall⟩
      · obtain ⟨c, hc, hn⟩ := hex
        exact absurd (hall c hc) hn
    · have hnot : ¬ ∀ c ∈ trim (v.getD []), 0x30 ≤ c ∧ c ≤ 0x39 :=
        fun hall => ht (key.mpr ⟨h, hall⟩)
      refine ⟨?_, fun h0 => absurd h0 h, fun _ _ => ?_⟩
      · simp only [validateStudentId, List.isEmpty_iff, h, ht]
        simp [hnot]
      · simp [validateStudentId, List.isEmpty_iff, h, ht]

theorem validateRollNo_cases (v : Option JSString) :
    ((validateRollNo v).valid = true ↔
      trim (v.getD []) ≠ [] ∧ ∀ c ∈ trim (v.getD []), 0x30 ≤ c ∧ c ≤ 0x39) ∧
    (trim (v.getD []) = [] →
      validateRollNo v = { valid := false, message := some "Roll No. is required." }) ∧
    (trim (v.getD []) ≠ [] → (∃ c ∈ trim (v.getD []), ¬ (0x30 ≤ c ∧ c ≤ 0x39)) →
      validateRollNo v =
        { valid := false, message := some "Roll No. must contain only numbers." }) := by
  have key := testClassPlus_eq_true isDigit (trim (v.getD []))
  simp only [isDigit_iff] at key
  by_cases h : trim (v.getD []) = []
  · simp [validateRollNo, h]
  · by_cases ht : testClassPlus isDigit (trim (v.getD [])) = true
    · have hall := (key.mp ht).2
      refine ⟨?_, fun h0 => absurd h0 h, fun _ hex => ?_⟩
      · simp only [validateRollNo, List.isEmpty_iff, h, ht]
        simpa using ⟨h, hall⟩
      · obtain ⟨c, hc, hn⟩ := hex
        exact absurd (hall c hc) hn
    · have hnot : ¬ ∀ c ∈ trim (v.getD []), 0x30 ≤ c ∧ c ≤ 0x39 :=
        fun hall => ht (key.mpr ⟨h, hall⟩)
      refine ⟨?_, fun h0 => absurd h0 h, fun _ _ => ?_⟩
      · simp only [validateRollNo, List.isEmpty_iff, h, ht]
        simp [hnot]
      · simp [validateRollNo, List.isEmpty_iff, h, ht]

/-- C5: `validateStudentId v` and `validateRollNo v` are each valid exactly when the trimmed
value is non-empty and every code unit of it is a decimal digit `0`-`9`; a trimmed-empty or
absent value gives "Student ID is required." / "Roll No. is required.", and a non-empty
trimmed value with a non-digit gives "Student ID must contain only numbers." /
"Roll No. must contain only numbers.". -/
theorem validateStudentId_validateRollNo_spec (v : Option JSString) :
    (((validateStudentId v).valid = true ↔
        trim (v.getD []) ≠ [] ∧ ∀ c ∈ trim (v.getD []), 0x30 ≤ c ∧ c ≤ 0x39) ∧
      (trim (v.getD []) = [] →
        validateStudentId v = { valid := false, message := some "Student ID is required." }) ∧
      (trim (v.getD []) ≠ [] → (∃ c ∈ trim (v.getD []), ¬ (0x30 ≤ c ∧ c ≤ 0x39)) →
        validateStudentId v =
          { valid := false, message := some "Student ID must contain only numbers." })) ∧
    (((validateRollNo v).valid = true ↔
        trim (v.getD []) ≠ [] ∧ ∀ c ∈ trim (v.getD []), 0x30 ≤ c ∧ c ≤ 0x39) ∧
      (trim (v.getD []) = [] →
        validateRollNo v = { valid := false, message := some "Roll No. is required." }) ∧
      (trim (v.getD []) ≠ [] → (∃ c ∈ trim (v.getD []), ¬ (0x30 ≤ c ∧ c ≤ 0x39)) →
        validateRollNo v =
          { valid := false, message := some "Roll No. must contain only numbers." })) :=
  ⟨validateStudentId_cases v, validateRollNo_cases v⟩

/-- Witness for C5: the blank value, "abc" and " 007 ". -/
theorem validateStudentId_validateRollNo_spec_witness :
    validateStudentId (some (js "  ")) =
      { valid := false, message := some "Student ID is required." } ∧
    validateStudentId (some (js "abc")) =
      { valid := false, message := some "Student ID must contain only numbers." } ∧
    validateRollNo (some (js "abc")) =
      { valid := false, message := some "Roll No. must contain only numbers." } ∧
    (validateRollNo (some (js " 007 "))).valid = true :=
  ⟨(validateStudentId_validateRollNo_spec (some (js "  "))).1.2.1 (by decide),
   (validateStudentId_validateRollNo_spec (some (js "abc"))).1.2.2 (by decide)
     ⟨0x61, by decide, by decide⟩,
   (validateStudentId_validateRollNo_spec (some (js "abc"))).2.2.2 (by decide)
     ⟨0x61, by decide, by decide⟩,
   (validateStudentId_validateRollNo_spec (some (js " 007 "))).2.1.mpr (by decide)⟩

theorem validateClass_cases (v : Option JSString) :
    ((validateClass v).valid = true ↔ trim (v.getD []) ≠ []) ∧
    (trim (v.getD []) = [] →
      validateClass v = { valid := false, message := some "Class is required." }) := by
  by_cases h : trim (v.getD []) = []
  · simp [validateClass, h]
  · simp [validateClass, List.isEmpty_iff, h]

/-- C6: `validateClass v` is valid exactly when the trimmed value is non-empty, whatever its
code units; otherwise (trimmed-empty or absent) it is invalid with "Class is required.". -/
theorem validateClass_spec (v : Option JSString) :
    ((validateClass v).valid = true ↔ trim (v.getD []) ≠ []) ∧
    (trim (v.getD []) = [] →
      validateClass v = { valid := false, message := some "Class is required." }) :=
  validateClass_cases v

/-- Witness for C6: the absent value and the class "10-A #2". -/
theorem validateClass_spec_witness :
    validateClass none = { valid := false, message := some "Class is required." } ∧
    (validateClass (some (js " 10-A #2"))).valid = true :=
  ⟨(validateClass_spec none).2 (by decide),
   (validateClass_spec (some (js " 10-A #2"))).1.mpr (by decide)⟩

/-! ## Submit and delete: theorems -/

theorem clearAllErrors_eq (s : State) : clearAllErrors s = { s with errors := noErrors } := by
  rfl

theorem validateName_valid_trim_ne (v : JSString)
    (h : (validateName (some v)).valid = true) : trim v ≠ [] := by
  have := (validateName_cases (some v)).1.mp h
  simpa using this.1

theorem validateStudentId_valid_trim_ne (v : JSString)
    (h : (validateStudentId (some v)).valid = true) : trim v ≠ [] := by
  have := (validateStudentId_cases (some v)).1.mp h
  simpa using this.1

theorem validateClass_valid_trim_ne (v : JSString)
    (h : (validateClass (some v)).valid = true) : trim v ≠ [] := by
  have := (validateClass_cases (some v)).1.mp h
  simpa using this

theorem validateRollNo_valid_trim_ne (v : JSString)
    (h : (validateRollNo (some v)).valid = true) : trim v ≠ [] := by
  have := (validateRollNo_cases (some v)).1.mp h
  simpa using this.1

theorem hasEmptyFields_eq_false_iff (s : State) :
    hasEmptyFields s = false ↔
      trim s.form.name ≠ [] ∧ trim s.form.id ≠ [] ∧ trim s.form.cls ≠ [] ∧
        trim s.form.rollNo ≠ [] := by
  simp [hasEmptyFields, List.isEmpty_iff, and_assoc]

theorem hasEmptyFields_of_formValid (s : State) (h : formValid s.form) :
    hasEmptyFields s = false :=
  (hasEmptyFields_eq_false_iff s).mpr
    ⟨validateName_valid_trim_ne _ h.1, validateStudentId_valid_trim_ne _ h.2.1,
      validateClass_valid_trim_ne _ h.2.2.1, validateRollNo_valid_trim_ne _ h.2.2.2⟩

theorem validateForm_snd (s : State) :
    (validateForm s).2 = true ↔ formValid s.form := by
  simp [validateForm, formValid, and_assoc]

theorem validateForm_fst (s : State) :
    (validateForm s).1 =
      { s with errors :=
          { name := ⟨errorText (validateName (some s.form.name)),
                      (errorText (validateName (some s.form.name))).isEmpty⟩,
            id := ⟨errorText (validateStudentId (some s.form.id)),
                    (errorText (validateStudentId (some s.form.id))).isEmpty⟩,
            cls := ⟨errorText (validateClass (some s.form.cls)),
                     (errorText (validateClass (some s.form.cls))).isEmpty⟩,
            rollNo := ⟨errorText (validateRollNo (some s.form.rollNo)),
                        (errorText (validateRollNo (some s.form.rollNo))).isEmpty⟩ } } := by
  rfl

/-- The submit handler on a form that passes validation. -/
theorem submit_of_formValid (s : State) (h : formValid s.form) :
    submit s =
      clearForm (saveAndRender
        (match s.editingIndex with
          | some i => { (validateForm s).1 with
              students := s.students.set i (buildRecord s.form) }
          | none => { (validateForm s).1 with
              students := s.students.push (buildRecord s.form) })) := by
  have h1 := hasEmptyFields_of_formValid s h
  have h2 := (validateForm_snd s).mpr h
  unfold submit
  simp only [h1, Bool.false_eq_true, if_false]
  rw [show validateForm s = ((validateForm s).1, (validateForm s).2) from rfl]
  simp only [h2, Bool.not_true, Bool.false_eq_true, if_false]
  clear h h1 h2
  obtain ⟨st, ei, sto, f, fd, er, sl, ch⟩ := s
  cases ei <;> rfl

theorem clearForm_students (s : State) : (clearForm s).students = s.students := rfl

theorem saveAndRender_students (s : State) : (saveAndRender s).students = s.students := rfl

/-- C1: with no edit cursor and four fields that pass their validators, submit turns the
record list `L` into `L` followed by one record holding the trimmed field strings; nothing is
assumed about `L`, so an equal record may already be in it. -/
theorem submit_add_appends (s : State) (L : List Record)
    (hL : s.students = JSArray.ofList L) (hcur : s.editingIndex = none)
    (hname : (validateName (some s.form.name)).valid = true)
    (hid : (validateStudentId (some s.form.id)).valid = true)
    (hcls : (validateClass (some s.form.cls)).valid = true)
    (hroll : (validateRollNo (some s.form.rollNo)).valid = true) :
    (submit s).students =
      JSArray.ofList (L ++ [{ name := trim s.form.name, studentId := trim s.form.id,
                              cls := trim s.form.cls, rollNo := trim s.form.rollNo }]) ∧
    (submit s).students.length = L.length + 1 := by
  have hs := submit_of_formValid s ⟨hname, hid, hcls, hroll⟩
  rw [hcur] at hs
  have hst : (submit s).students = s.students.push (buildRecord s.form) := by
    rw [hs]; rfl
  rw [hst, hL]
  simp [JSArray.push, JSArray.ofList, JSArray.length, buildRecord]

/-- Witness for C1: adding James Bond, typed with surrounding blanks, to a list that
already holds an equal record; the identifier "007" keeps its zeros. -/
theorem submit_add_appends_witness :
    (validateStudentId (some (js " 007"))).valid = true ∧
    (submit (sampleState [bond] none
        { name := js " James Bond ", id := js " 007", cls := js "MI6", rollNo := js "007 " })).students =
      JSArray.ofList ([bond] ++ [bond]) :=
  ⟨by decide,
   (submit_add_appends (sampleState [bond] none
        { name := js " James Bond ", id := js " 007", cls := js "MI6", rollNo := js "007 " })
      [bond] rfl rfl (by decide) (by decide) (by decide) (by decide)).1⟩

theorem JSArray.get_of_lt (a : JSArray) (k : Int) (h0 : 0 ≤ k)
    (hlt : k.toNat < a.elems.length) : a.get k = a.elems.getD k.toNat none := by
  simp only [JSArray.get, h0, hlt, and_self, if_true]

theorem JSArray.get_of_not (a : JSArray) (k : Int)
    (h : ¬ (0 ≤ k ∧ k.toNat < a.elems.length)) :
    a.get k = (a.extra.find? (fun p => p.1 == k)).map (fun p => p.2) := by
  simp only [JSArray.get, h, if_false]

theorem JSArray.set_of_lt (a : JSArray) (k : Int) (r : Record) (h0 : 0 ≤ k)
    (hlt : k.toNat < a.elems.length) :
    a.set k r = { a with elems := a.elems.set k.toNat (some r) } := by
  simp only [JSArray.set, h0, hlt, and_self, if_true]

theorem JSArray.set_of_index (a : JSArray) (k : Int) (r : Record) (h0 : 0 ≤ k)
    (hge : ¬ k.toNat < a.elems.length) (hmax : k < (maxLength : Int)) :
    a.set k r =
      { a with elems :=
          a.elems ++ List.replicate (k.toNat - a.elems.length) none ++ [some r] } := by
  simp only [JSArray.set, h0, hge, hmax, and_false, and_self, if_true, if_false]

theorem JSArray.set_of_other (a : JSArray) (k : Int) (r : Record)
    (h1 : ¬ (0 ≤ k ∧ k.toNat < a.elems.length)) (h2 : ¬ (0 ≤ k ∧ k < (maxLength : Int))) :
    a.set k r = { a with extra := (k, r) :: a.extra.filter (fun p => p.1 != k) } := by
  simp only [JSArray.set, h1, h2, if_false]

theorem JSArray.get_ofList (L : List Record) (j : Nat) :
    (JSArray.ofList L).get (j : Int) = L[j]? := by
  by_cases hlt : j < L.length
  · have h1 : ((j : Int)).toNat < (JSArray.ofList L).elems.length := by
      simp [JSArray.ofList, hlt]
    rw [JSArray.get_of_lt _ _ (Int.natCast_nonneg j) h1]
    simp only [JSArray.ofList, Int.toNat_ofNat]
    rw [List.getD_eq_getElem?_getD, List.getElem?_map]
    cases L[j]? <;> rfl
  · have h1 : ¬ (0 ≤ (j : Int) ∧ ((j : Int)).toNat < (JSArray.ofList L).elems.length) := by
      simp [JSArray.ofList, hlt]
    rw [JSArray.get_of_not _ _ h1, List.getElem?_eq_none (Nat.not_lt.mp hlt)]
    rfl

theorem JSArray.get_ofList_neg (L : List Record) (k : Int) (h : k < 0) :
    (JSArray.ofList L).get k = none := by
  have h1 : ¬ (0 ≤ k ∧ k.toNat < (JSArray.ofList L).elems.length) := by omega
  rw [JSArray.get_of_not _ _ h1]
  rfl

theorem JSArray.set_ofList (L : List Record) (i : Nat) (r : Record) (hi : i < L.length) :
    (JSArray.ofList L).set (i : Int) r = JSArray.ofList (L.set i r) := by
  have h1 : ((i : Int)).toNat < (JSArray.ofList L).elems.length := by
    simp [JSArray.ofList, hi]
  rw [JSArray.set_of_lt _ _ _ (Int.natCast_nonneg i) h1]
  simp [JSArray.ofList, List.map_set]

/-- C2: with the edit cursor at a valid index `i` of the record list `L` and four valid
fields, submit yields a list of the same length in which index `i` holds the record built
from the trimmed fields and every other index holds the record it held in `L`. -/
theorem submit_update_replaces (s : State) (L : List Record) (i : Nat)
    (hL : s.students = JSArray.ofList L) (hcur : s.editingIndex = some (i : Int))
    (hi : i < L.length)
    (hname : (validateName (some s.form.name)).valid = true)
    (hid : (validateStudentId (some s.form.id)).valid = true)
    (hcls : (validateClass (some s.form.cls)).valid = true)
    (hroll : (validateRollNo (some s.form.rollNo)).valid = true) :
    (submit s).students =
      JSArray.ofList (L.set i { name := trim s.form.name, studentId := trim s.form.id,
                                cls := trim s.form.cls, rollNo := trim s.form.rollNo }) ∧
    (submit s).students.length = L.length ∧
    (submit s).students.get (i : Int) =
      some { name := trim s.form.name, studentId := trim s.form.id,
             cls := trim s.form.cls, rollNo := trim s.form.rollNo } ∧
    ∀ j : Nat, j ≠ i → (submit s).students.get (j : Int) = (JSArray.ofList L).get (j : Int) := by
  have hs := submit_of_formValid s ⟨hname, hid, hcls, hroll⟩
  rw [hcur] at hs
  have hst : (submit s).students = s.students.set (i : Int) (buildRecord s.form) := by
    rw [hs]; rfl
  rw [hst, hL, JSArray.set_ofList L i _ hi]
  refine ⟨rfl, ?_, ?_, ?_⟩
  · simp [JSArray.ofList, JSArray.length]
  · rw [JSArray.get_ofList]
    simp [hi, buildRecord]
  · intro j hj
    rw [JSArray.get_ofList, JSArray.get_ofList]
    simp [List.getElem?_set, Ne.symm hj]

/-- Witness for C2: updating index 1 of a three-record list. -/
theorem submit_update_replaces_witness :
    (1 : Nat) < [janeDoe, bond, alan].length ∧
    (submit (sampleState [janeDoe, bond, alan] (some 1)
        { name := js "Ada Lovelace", id := js "1815", cls := js " 12B", rollNo := js "36" })).students =
      JSArray.ofList [janeDoe,
        { name := js "Ada Lovelace", studentId := js "1815", cls := js "12B", rollNo := js "36" },
        alan] :=
  ⟨by decide,
   (submit_update_replaces (sampleState [janeDoe, bond, alan] (some 1)
        { name := js "Ada Lovelace", id := js "1815", cls := js " 12B", rollNo := js "36" })
      [janeDoe, bond, alan] 1 rfl rfl (by decide) (by decide) (by decide) (by decide)
      (by decide)).1⟩

theorem deleteRecord_students (s : State) (index : Int) :
    (deleteRecord s index).students = s.students.splice index 1 := by
  unfold deleteRecord
  simp only
  split
  · rfl
  · split
    · split <;> rfl
    · rfl

theorem JSArray.splice_ofList (L : List Record) (i : Nat) (hi : i < L.length) :
    (JSArray.ofList L).splice (i : Int) 1 = JSArray.ofList (L.eraseIdx i) := by
  have h1 : min i L.length = i := Nat.min_eq_left (Nat.le_of_lt hi)
  have h2 : min 1 (L.length - i) = 1 := Nat.min_eq_left (by omega)
  have h3 : ¬ ((i : Int) < 0) := by omega
  simp only [JSArray.splice, JSArray.ofList, h3, if_false, Int.toNat_ofNat, List.length_map, h1,
    h2, List.eraseIdx_eq_take_drop_succ, List.map_append, List.map_take, List.map_drop]

/-- C3: for a valid index `i` of the record list `L`, `deleteRecord(i)` yields `L` with
exactly the element at `i` removed: the length drops by one, the elements before `i` keep
their place and every element after `i` moves down by one position. -/
theorem deleteRecord_removes (s : State) (L : List Record) (i : Nat)
    (hL : s.students = JSArray.ofList L) (hi : i < L.length) :
    (deleteRecord s (i : Int)).students = JSArray.ofList (L.eraseIdx i) ∧
    (deleteRecord s (i : Int)).students.length + 1 = L.length ∧
    (∀ j : Nat, j < i →
      (deleteRecord s (i : Int)).students.get (j : Int) = (JSArray.ofList L).get (j : Int)) ∧
    (∀ j : Nat, i ≤ j →
      (deleteRecord s (i : Int)).students.get (j : Int) =
        (JSArray.ofList L).get ((j + 1 : Nat) : Int)) := by
  rw [deleteRecord_students, hL, JSArray.splice_ofList L i hi]
  refine ⟨rfl, ?_, ?_, ?_⟩
  · simp only [JSArray.ofList, JSArray.length, List.length_map, List.length_eraseIdx, hi, if_true]
    omega
  · intro j hj
    rw [JSArray.get_ofList, JSArray.get_ofList, List.getElem?_eraseIdx]
    simp [hj]
  · intro j hj
    rw [JSArray.get_ofList, JSArray.get_ofList, List.getElem?_eraseIdx]
    simp [Nat.not_lt.mpr hj]

/-- Witness for C3: deleting index 0 of a two-element list leaves the second element. -/
theorem deleteRecord_removes_witness :
    (0 : Nat) < [janeDoe, bond].length ∧
    (deleteRecord (sampleState [janeDoe, bond] (some 1) blankForm) ((0 : Nat) : Int)).students =
      JSArray.ofList [bond] :=
  ⟨by decide,
   (deleteRecord_removes (sampleState [janeDoe, bond] (some 1) blankForm) [janeDoe, bond] 0 rfl
      (by decide)).1⟩

theorem submit_of_hasEmptyFields (s : State) (he : hasEmptyFields s = true) :
    submit s =
      { s with errors :=
          { name := ⟨"All fields are required. Cannot add an empty record.", false⟩,
            id := ⟨"", true⟩, cls := ⟨"", true⟩, rollNo := ⟨"", true⟩ } } := by
  unfold submit
  rw [if_pos he]
  rfl

theorem submit_of_invalid (s : State) (h1 : hasEmptyFields s = false)
    (h2 : (validateForm s).2 = false) : submit s = (validateForm s).1 := by
  unfold submit
  simp only [h1, Bool.false_eq_true, if_false]
  rw [show validateForm s = ((validateForm s).1, (validateForm s).2) from rfl]
  simp only [h2, Bool.not_false, if_true]

/-- C7: when at least one of the four fields is empty after trimming, submit shows the
aggregate message "All fields are required. Cannot add an empty record." in the name error
element, empties the three other error elements, and changes nothing else: the record list,
its length, the storage slot and the edit cursor are as before. -/
theorem submit_blank_rejected (s : State)
    (h : trim s.form.name = [] ∨ trim s.form.id = [] ∨ trim s.form.cls = [] ∨
      trim s.form.rollNo = []) :
    submit s =
      { s with errors :=
          { name := ⟨"All fields are required. Cannot add an empty record.", false⟩,
            id := ⟨"", true⟩, cls := ⟨"", true⟩, rollNo := ⟨"", true⟩ } } ∧
    (submit s).students = s.students ∧
    (submit s).students.length = s.students.length ∧
    (submit s).storage = s.storage ∧
    (submit s).editingIndex = s.editingIndex := by
  have he : hasEmptyFields s = true := by
    cases hb : hasEmptyFields s
    · have := (hasEmptyFields_eq_false_iff s).mp hb
      rcases h with h | h | h | h
      · exact absurd h this.1
      · exact absurd h this.2.1
      · exact absurd h this.2.2.1
      · exact absurd h this.2.2.2
    · rfl
  rw [submit_of_hasEmptyFields s he]
  exact ⟨rfl, rfl, rfl, rfl, rfl⟩

/-- Witness for C7: a blank-only class field while a record is being edited. -/
theorem submit_blank_rejected_witness :
    trim (js "  ") = [] ∧
    submit (sampleState [janeDoe] (some 0)
        { name := js "Jane Doe", id := js "101", cls := js "  ", rollNo := js "5" }) =
      { sampleState [janeDoe] (some 0)
          { name := js "Jane Doe", id := js "101", cls := js "  ", rollNo := js "5" } with
        errors :=
          { name := ⟨"All fields are required. Cannot add an empty record.", false⟩,
            id := ⟨"", true⟩, cls := ⟨"", true⟩, rollNo := ⟨"", true⟩ } } :=
  ⟨by decide,
   (submit_blank_rejected (sampleState [janeDoe] (some 0)
        { name := js "Jane Doe", id := js "101", cls := js "  ", rollNo := js "5" })
      (Or.inr (Or.inr (Or.inl (by decide))))).1⟩

/-- C8: when no field is blank but at least one validator fails, submit sets each error
element to the message of that field's validator (the empty text for a field that passes,
hidden exactly when empty) and changes nothing else: the record list, the storage slot and
the edit cursor are as before. -/
theorem submit_invalid_rejected (s : State)
    (hne : trim s.form.name ≠ [] ∧ trim s.form.id ≠ [] ∧ trim s.form.cls ≠ [] ∧
      trim s.form.rollNo ≠ [])
    (hbad : (validateName (some s.form.name)).valid = false ∨
      (validateStudentId (some s.form.id)).valid = false ∨
      (validateClass (some s.form.cls)).valid = false ∨
      (validateRollNo (some s.form.rollNo)).valid = false) :
    (submit s).errors.name.textContent =
      (if (validateName (some s.form.name)).valid then ""
        else (validateName (some s.form.name)).message.getD "") ∧
    (submit s).errors.id.textContent =
      (if (validateStudentId (some s.form.id)).valid then ""
        else (validateStudentId (some s.form.id)).message.getD "") ∧
    (submit s).errors.cls.textContent =
      (if (validateClass (some s.form.cls)).valid then ""
        else (validateClass (some s.form.cls)).message.getD "") ∧
    (submit s).errors.rollNo.textContent =
      (if (validateRollNo (some s.form.rollNo)).valid then ""
        else (validateRollNo (some s.form.rollNo)).message.getD "") ∧
    submit s = { s with errors := (submit s).errors } ∧
    (submit s).students = s.students ∧
    (submit s).storage = s.storage ∧
    (submit s).editingIndex = s.editingIndex := by
  have h1 : hasEmptyFields s = false := (hasEmptyFields_eq_false_iff s).mpr hne
  have h2 : (validateForm s).2 = false := by
    cases hv : (validateForm s).2
    · rfl
    · have := (validateForm_snd s).mp hv
      rcases hbad with h | h | h | h
      · rw [this.1] at h; cases h
      · rw [this.2.1] at h; cases h
      · rw [this.2.2.1] at h; cases h
      · rw [this.2.2.2] at h; cases h
  rw [submit_of_invalid s h1 h2, validateForm_fst]
  exact ⟨rfl, rfl, rfl, rfl, rfl, rfl, rfl, rfl⟩

/-- Witness for C8: the name "John123" and the roll number "abc" fail, the two other fields
pass. -/
theorem submit_invalid_rejected_witness :
    (validateName (some (js "John123"))).valid = false ∧
    (submit (sampleState [janeDoe] none
        { name := js "John123", id := js "101", cls := js "10A", rollNo := js "abc" })).errors.name.textContent =
      (if (validateName (some (js "John123"))).valid then ""
        else (validateName (some (js "John123"))).message.getD "") :=
  ⟨by decide,
   (submit_invalid_rejected (sampleState [janeDoe] none
        { name := js "John123", id := js "101", cls := js "10A", rollNo := js "abc" })
      ⟨by decide, by decide, by decide, by decide⟩ (Or.inl (by decide))).1⟩

/-! ## The invariant of stored records -/

theorem trimEnd_eq_rdropWhile (s : JSString) : trimEnd s = s.rdropWhile isWhiteSpace := rfl

theorem trimStart_trim (s : JSString) : trimStart (trim s) = trim s := by
  unfold trim trimStart
  rw [trimEnd_eq_rdropWhile]
  have hpre : (List.dropWhile isWhiteSpace s).rdropWhile isWhiteSpace <+:
      List.dropWhile isWhiteSpace s := List.rdropWhile_prefix _ _
  cases hr : (List.dropWhile isWhiteSpace s).rdropWhile isWhiteSpace with
  | nil => rfl
  | cons y ys =>
    rw [hr] at hpre
    obtain ⟨t, ht⟩ := hpre
    have hne : List.dropWhile isWhiteSpace s ≠ [] := by
      rw [← ht]; simp
    have hhead := List.head_dropWhile_not isWhiteSpace s hne
    have hy : (List.dropWhile isWhiteSpace s).head hne = y := by
      simp [← ht]
    rw [hy] at hhead
    simp [List.dropWhile, hhead]

theorem trim_trim (s : JSString) : trim (trim s) = trim s := by
  have h1 : trim (trim s) = trimEnd (trimStart (trim s)) := rfl
  rw [h1, trimStart_trim]
  unfold trim
  rw [trimEnd_eq_rdropWhile, trimEnd_eq_rdropWhile]
  exact List.rdropWhile_idempotent _ _

theorem validateName_trim (v : JSString) :
    validateName (some (trim v)) = validateName (some v) := by
  simp [validateName, trim_trim]

theorem validateStudentId_trim (v : JSString) :
    validateStudentId (some (trim v)) = validateStudentId (some v) := by
  simp [validateStudentId, trim_trim]

theorem validateClass_trim (v : JSString) :
    validateClass (some (trim v)) = validateClass (some v) := by
  simp [validateClass, trim_trim]

theorem validateRollNo_trim (v : JSString) :
    validateRollNo (some (trim v)) = validateRollNo (some v) := by
  simp [validateRollNo, trim_trim]

/-- The record built from a form that passes validation passes validation itself. -/
theorem validRecord_buildRecord (f : Form) (h : formValid f) : validRecord (buildRecord f) := by
  unfold validRecord buildRecord
  simp only [validateName_trim, validateStudentId_trim, validateClass_trim, validateRollNo_trim]
  exact h

/-- A submit that does not pass validation leaves the list, the cursor and the slot alone. -/
theorem submit_of_not_formValid (s : State) (h : ¬ formValid s.form) :
    (submit s).students = s.students ∧ (submit s).editingIndex = s.editingIndex ∧
      (submit s).storage = s.storage := by
  have h2 : (validateForm s).2 = false := by
    cases hv : (validateForm s).2
    · rfl
    · exact absurd ((validateForm_snd s).mp hv) h
  cases he : hasEmptyFields s
  · rw [submit_of_invalid s he h2, validateForm_fst]
    exact ⟨rfl, rfl, rfl⟩
  · rw [submit_of_hasEmptyFields s he]
    exact ⟨rfl, rfl, rfl⟩

theorem Inv_of_eq (s t : State) (hs : t.students = s.students)
    (hc : t.editingIndex = s.editingIndex) (h : Inv s) : Inv t := by
  unfold Inv at *
  rw [hs, hc]
  exact h

theorem Inv_submit (s : State) (h : Inv s) : Inv (submit s) := by
  by_cases hv : formValid s.form
  · have hrec := validRecord_buildRecord s.form hv
    have hs := submit_of_formValid s hv
    obtain ⟨h1, h2, h3⟩ := h
    cases hc : s.editingIndex with
    | none =>
      rw [hc] at hs
      have hst : (submit s).students = s.students.push (buildRecord s.form) := by rw [hs]; rfl
      have hcur : (submit s).editingIndex = none := by rw [hs]; rfl
      refine ⟨?_, ?_, ?_⟩
      · intro e he
        rw [hst] at he
        simp only [JSArray.push, List.mem_append, List.mem_singleton] at he
        rcases he with he | he
        · exact h1 e he
        · exact ⟨_, he, hrec⟩
      · intro p hp
        rw [hst] at hp
        exact h2 p hp
      · intro c hcc
        rw [hcur] at hcc
        cases hcc
    | some i =>
      rw [hc] at hs
      have hst : (submit s).students = s.students.set i (buildRecord s.form) := by rw [hs]; rfl
      have hcur : (submit s).editingIndex = none := by rw [hs]; rfl
      have hi := h3 i hc
      by_cases h0 : 0 ≤ i
      · have hlt : i.toNat < s.students.elems.length := by omega
        rw [JSArray.set_of_lt _ _ _ h0 hlt] at hst
        refine ⟨?_, ?_, ?_⟩
        · intro e he
          rw [hst] at he
          rcases List.mem_or_eq_of_mem_set he with he | he
          · exact h1 e he
          · exact ⟨_, he, hrec⟩
        · intro p hp
          rw [hst] at hp
          exact h2 p hp
        · intro c hcc
          rw [hcur] at hcc
          cases hcc
      · have n1 : ¬ (0 ≤ i ∧ i.toNat < s.students.elems.length) := fun hh => h0 hh.1
        have n2 : ¬ (0 ≤ i ∧ i < (maxLength : Int)) := fun hh => h0 hh.1
        rw [JSArray.set_of_other _ _ _ n1 n2] at hst
        refine ⟨?_, ?_, ?_⟩
        · intro e he
          rw [hst] at he
          exact h1 e he
        · intro p hp
          rw [hst] at hp
          simp only [List.mem_cons] at hp
          rcases hp with hp | hp
          · rw [hp]
            exact ⟨hrec, by omega⟩
          · exact h2 p (List.mem_of_mem_filter hp)
        · intro c hcc
          rw [hcur] at hcc
          cases hcc
  · obtain ⟨e1, e2, _⟩ := submit_of_not_formValid s hv
    exact Inv_of_eq s _ e1 e2 h

theorem JSArray.get_some_lt (a : JSArray) (k : Int) (r : Record)
    (hextra : ∀ p ∈ a.extra, p.1 < 0) (h : a.get k = some r) :
    k < (a.elems.length : Int) := by
  by_cases hk : 0 ≤ k ∧ k.toNat < a.elems.length
  · omega
  · rw [JSArray.get_of_not _ _ hk] at h
    cases hf : a.extra.find? (fun p => p.1 == k) with
    | none =>
      rw [hf] at h
      cases h
    | some p =>
      have hmem := List.mem_of_find?_eq_some hf
      have hkey := List.find?_some hf
      have hpk : p.1 = k := by simpa using hkey
      have := hextra p hmem
      omega

theorem Inv_step_startEdit (s : State) (index : Int) (h : Inv s) :
    Inv (step s (.startEdit index)) := by
  simp only [step, startEdit]
  cases hg : s.students.get index with
  | none => exact h
  | some r =>
    obtain ⟨h1, h2, _⟩ := h
    refine ⟨h1, h2, ?_⟩
    intro c hc
    have hci : c = index := by
      have : some index = some c := hc
      injection this with this
      exact this.symm
    rw [hci]
    exact JSArray.get_some_lt _ _ _ (fun p hp => (h2 p hp).2) hg

theorem Inv_cancel (s : State) (h : Inv s) : Inv (cancel s) := by
  obtain ⟨h1, h2, _⟩ := h
  refine ⟨h1, h2, ?_⟩
  intro c hc
  cases hc

theorem deleteRecord_editingIndex (s : State) (index : Int) :
    (deleteRecord s index).editingIndex =
      match s.editingIndex with
      | none => none
      | some e => if e = index then none else if e > index then some (e - 1) else some e := by
  unfold deleteRecord
  obtain ⟨st, ei, sto, f, fd, er, sl, ch⟩ := s
  cases ei with
  | none => rfl
  | some e =>
    simp only [saveAndRender, Option.some.injEq]
    by_cases h1 : e = index
    · simp only [h1, if_true]
      rfl
    · simp only [h1, if_false]
      by_cases h2 : e > index
      · simp only [h2, if_true]
      · simp only [h2, if_false]

theorem JSArray.splice_one_elems (a : JSArray) (index : Int) :
    (∀ e ∈ (a.splice index 1).elems, e ∈ a.elems) ∧ (a.splice index 1).extra = a.extra ∧
    (a.splice index 1).elems.length + 1 ≥ a.elems.length ∧
    ((a.splice index 1).elems.length = a.elems.length ∨
      ((a.splice index 1).elems.length + 1 = a.elems.length ∧
        index < (a.elems.length : Int))) := by
  unfold JSArray.splice
  refine ⟨?_, rfl, ?_, ?_⟩
  · intro e he
    simp only [List.mem_append] at he
    rcases he with he | he
    · exact List.mem_of_mem_take he
    · exact List.mem_of_mem_drop he
  · simp only [List.length_append, List.length_take, List.length_drop]
    split <;> omega
  · simp only [List.length_append, List.length_take, List.length_drop]
    split <;> omega

theorem Inv_deleteRecord (s : State) (index : Int) (h : Inv s) :
    Inv (deleteRecord s index) := by
  obtain ⟨h1, h2, h3⟩ := h
  obtain ⟨m1, m2, m3, m4⟩ := JSArray.splice_one_elems s.students index
  refine ⟨?_, ?_, ?_⟩
  · intro e he
    rw [deleteRecord_students] at he
    exact h1 e (m1 e he)
  · intro p hp
    rw [deleteRecord_students, m2] at hp
    exact h2 p hp
  · intro c hc
    rw [deleteRecord_students]
    rw [deleteRecord_editingIndex] at hc
    cases he : s.editingIndex with
    | none => rw [he] at hc; cases hc
    | some e =>
      rw [he] at hc
      have hlt := h3 e he
      by_cases e1 : e = index
      · simp only [e1, if_true] at hc
        cases hc
      · simp only [e1, if_false] at hc
        by_cases e2 : e > index
        · simp only [e2, if_true, Option.some.injEq] at hc
          omega
        · simp only [e2, if_false, Option.some.injEq] at hc
          rcases m4 with m4 | m4
          · omega
          · omega

theorem Inv_step (s : State) (a : Action) (h : Inv s) : Inv (step s a) := by
  cases a with
  | submit => exact Inv_submit s h
  | startEdit index => exact Inv_step_startEdit s index h
  | cancel => exact Inv_cancel s h
  | deleteRecord index => exact Inv_deleteRecord s index h
  | input f => exact Inv_of_eq s _ rfl rfl h

theorem Inv_run (actions : List Action) (s : State) (h : Inv s) : Inv (run s actions) := by
  induction actions generalizing s with
  | nil => exact h
  | cons a rest ih => exact ih (step s a) (Inv_step s a h)

/-- C9: in every state reached from an empty record list (no edit cursor held) by any
sequence of submit, start-edit, cancel and delete actions, with any typing into the form in
between and any index passed to start-edit and delete, every element of the list is a record
(there is no hole) that passes `validateName`, `validateStudentId`, `validateClass` and
`validateRollNo` on its four fields. -/
theorem reachable_records_valid (s0 : State) (actions : List Action)
    (hempty : s0.students = JSArray.ofList []) (hcur : s0.editingIndex = none) :
    ∀ e ∈ (run s0 actions).students.elems,
      ∃ r, e = some r ∧
        (validateName (some r.name)).valid = true ∧
        (validateStudentId (some r.studentId)).valid = true ∧
        (validateClass (some r.cls)).valid = true ∧
        (validateRollNo (some r.rollNo)).valid = true := by
  have h0 : Inv s0 := by
    refine ⟨?_, ?_, ?_⟩
    · intro e he
      rw [hempty] at he
      cases he
    · intro p hp
      rw [hempty] at hp
      cases hp
    · intro c hc
      rw [hcur] at hc
      cases hc
  exact (Inv_run actions s0 h0).1

/-- Witness for C9: two records are added, the first is edited and the second deleted. -/
theorem reachable_records_valid_witness :
    (run (sampleState [] none blankForm)
        [.input { name := js " Jane Doe", id := js "101", cls := js "10A", rollNo := js "5" },
          .submit,
          .input { name := js "James Bond", id := js "007", cls := js "MI6", rollNo := js "007" },
          .submit, .startEdit 0, .submit, .deleteRecord 1]).students =
      JSArray.ofList [janeDoe] ∧
    ∀ e ∈ (run (sampleState [] none blankForm)
        [.input { name := js " Jane Doe", id := js "101", cls := js "10A", rollNo := js "5" },
          .submit,
          .input { name := js "James Bond", id := js "007", cls := js "MI6", rollNo := js "007" },
          .submit, .startEdit 0, .submit, .deleteRecord 1]).students.elems,
      ∃ r, e = some r ∧
        (validateName (some r.name)).valid = true ∧
        (validateStudentId (some r.studentId)).valid = true ∧
        (validateClass (some r.cls)).valid = true ∧
        (validateRollNo (some r.rollNo)).valid = true :=
  ⟨by decide, reachable_records_valid (sampleState [] none blankForm) _ rfl rfl⟩

/-! ## Save and load -/

theorem hexValue_hexDigit (n : Nat) (h : n < 16) : hexValue (hexDigit n) = some n := by
  interval_cases n <;> rfl

theorem parseStringBody_quote (rest : JSString) :
    parseStringBody (0x22 :: rest) = some ([], rest) := by
  rw [parseStringBody.eq_def]
  simp

theorem parseStringBody_literal (c : Nat) (rest : JSString) (h1 : c ≠ 0x22) (h2 : c ≠ 0x5C)
    (h3 : ¬ c < 0x20) :
    parseStringBody (c :: rest) = (parseStringBody rest).map (fun p => (c :: p.1, p.2)) := by
  rw [parseStringBody.eq_def]
  simp [h1, h2, h3]

theorem parseStringBody_escape (e v : Nat) (rest : JSString) (h1 : e ≠ 0x75)
    (h2 : escapeValue e = some v) :
    parseStringBody (0x5C :: e :: rest) =
      (parseStringBody rest).map (fun p => (v :: p.1, p.2)) := by
  rw [parseStringBody.eq_def]
  simp [h1, h2]

theorem parseStringBody_unicodeEscape (c : Nat) (hc : c < 65536) (rest : JSString) :
    parseStringBody (unicodeEscape c ++ rest) =
      (parseStringBody rest).map (fun p => (c :: p.1, p.2)) := by
  have e1 := hexValue_hexDigit (c / 4096 % 16) (Nat.mod_lt _ (by decide))
  have e2 := hexValue_hexDigit (c / 256 % 16) (Nat.mod_lt _ (by decide))
  have e3 := hexValue_hexDigit (c / 16 % 16) (Nat.mod_lt _ (by decide))
  have e4 := hexValue_hexDigit (c % 16) (Nat.mod_lt _ (by decide))
  have hval : c / 4096 % 16 * 4096 + c / 256 % 16 * 256 + c / 16 % 16 * 16 + c % 16 = c := by
    omega
  simp only [unicodeEscape, List.cons_append, List.nil_append]
  rw [parseStringBody.eq_def]
  simp only [show ¬ ((0x5C : Nat) = 0x22) by decide, if_false, if_true]
  simp only [e1, e2, e3, e4, hval]

theorem parseStringBody_quoteUnit (c : Nat) (rest : JSString) :
    parseStringBody (quoteUnit c ++ rest) =
      (parseStringBody rest).map (fun p => (c :: p.1, p.2)) := by
  unfold quoteUnit
  split_ifs with h1 h2 h3 h4 h5 h6 h7 h8
  · subst h1; exact parseStringBody_escape _ _ _ (by decide) (by decide)
  · subst h2; exact parseStringBody_escape _ _ _ (by decide) (by decide)
  · subst h3; exact parseStringBody_escape _ _ _ (by decide) (by decide)
  · subst h4; exact parseStringBody_escape _ _ _ (by decide) (by decide)
  · subst h5; exact parseStringBody_escape _ _ _ (by decide) (by decide)
  · subst h6; exact parseStringBody_escape _ _ _ (by decide) (by decide)
  · subst h7; exact parseStringBody_escape _ _ _ (by decide) (by decide)
  · apply parseStringBody_unicodeEscape
    simp [isLeadSurrogate, isTrailSurrogate] at h8
    omega
  · simp [isLeadSurrogate, isTrailSurrogate] at h8
    exact parseStringBody_literal c rest h6 h7 (by omega)

theorem parseStringBody_quoteChars (s : JSString) (rest : JSString) :
    parseStringBody (quoteChars s ++ 0x22 :: rest) = some (s, rest) := by
  induction s using quoteChars.induct with
  | case1 => exact parseStringBody_quote rest
  | case2 c =>
    rw [quoteChars, parseStringBody_quoteUnit, parseStringBody_quote]
    rfl
  | case3 c d rest1 h ih =>
    rw [quoteChars, if_pos h]
    simp [isLeadSurrogate, isTrailSurrogate] at h
    simp only [List.cons_append]
    rw [parseStringBody_literal c _ (by omega) (by omega) (by omega),
      parseStringBody_literal d _ (by omega) (by omega) (by omega), ih]
    rfl
  | case4 c d rest1 h ih =>
    rw [quoteChars, if_neg h, List.append_assoc, parseStringBody_quoteUnit, ih]
    rfl

theorem skipWS_cons_of_not_ws (c : Nat) (rest : JSString) (h : isJSONWhiteSpace c = false) :
    skipWS (c :: rest) = c :: rest := by
  simp [skipWS, List.dropWhile, h]

theorem quoteJSONString_append (k t : JSString) :
    quoteJSONString k ++ t = 0x22 :: (quoteChars k ++ 0x22 :: t) := by
  simp [quoteJSONString]

theorem parseAux_value_string (f : Nat) (v rest : JSString) :
    parseAux (f + 1) .value (quoteJSONString v ++ rest) = some (.str v, rest) := by
  rw [quoteJSONString_append, parseAux, skipWS_cons_of_not_ws _ _ (by decide)]
  simp [parseStringBody_quoteChars]

theorem parseAux_members_more (f : Nat) (acc : List (JSString × JVal)) (k v rest : JSString) :
    parseAux (f + 2) (.members acc)
        (quoteJSONString k ++ 0x3A :: (quoteJSONString v ++ 0x2C :: rest)) =
      parseAux (f + 1) (.members (setMember acc k (.str v))) rest := by
  rw [quoteJSONString_append, parseAux, skipWS_cons_of_not_ws _ _ (by decide)]
  simp only [if_true, parseStringBody_quoteChars, skipWS_cons_of_not_ws 0x3A _ (by decide),
    parseAux_value_string, skipWS_cons_of_not_ws 0x2C _ (by decide)]

theorem parseAux_members_last (f : Nat) (acc : List (JSString × JVal)) (k v rest : JSString) :
    parseAux (f + 2) (.members acc)
        (quoteJSONString k ++ 0x3A :: (quoteJSONString v ++ 0x7D :: rest)) =
      some (.obj (setMember acc k (.str v)), rest) := by
  rw [quoteJSONString_append, parseAux, skipWS_cons_of_not_ws _ _ (by decide)]
  simp only [if_true, parseStringBody_quoteChars, skipWS_cons_of_not_ws 0x3A _ (by decide),
    parseAux_value_string, skipWS_cons_of_not_ws 0x7D _ (by decide)]
  simp

theorem stringifyRecord_append (r : Record) (rest : JSString) :
    stringifyRecord r ++ rest =
      0x7B :: (quoteJSONString (js "name") ++ 0x3A :: (quoteJSONString r.name ++ 0x2C ::
        (quoteJSONString (js "studentId") ++ 0x3A :: (quoteJSONString r.studentId ++ 0x2C ::
        (quoteJSONString (js "class") ++ 0x3A :: (quoteJSONString r.cls ++ 0x2C ::
        (quoteJSONString (js "rollNo") ++ 0x3A :: (quoteJSONString r.rollNo ++
          0x7D :: rest)))))))) := by
  have h1 : js "\x7b" = [0x7B] := rfl
  have h2 : js ":" = [0x3A] := rfl
  have h3 : js "," = [0x2C] := rfl
  have h4 : js "\x7d" = [0x7D] := rfl
  simp only [stringifyRecord, h1, h2, h3, h4, List.append_assoc, List.cons_append,
    List.nil_append]

theorem recordValue_eq (r : Record) :
    JVal.obj (setMember (setMember (setMember (setMember [] (js "name") (.str r.name))
      (js "studentId") (.str r.studentId)) (js "class") (.str r.cls))
      (js "rollNo") (.str r.rollNo)) = recordValue r := by
  rfl

theorem parseAux_value_record (f : Nat) (r : Record) (rest : JSString) :
    parseAux (f + 6) .value (stringifyRecord r ++ rest) = some (recordValue r, rest) := by
  rw [stringifyRecord_append, parseAux, skipWS_cons_of_not_ws _ _ (by decide)]
  simp only [show ¬ ((0x7B : Nat) = 0x5B) by decide, if_false, if_true]
  rw [quoteJSONString_append, skipWS_cons_of_not_ws _ _ (by decide)]
  simp only [show ¬ ((0x22 : Nat) = 0x7D) by decide, if_false]
  rw [← quoteJSONString_append, parseAux_members_more (f + 3), parseAux_members_more (f + 2),
    parseAux_members_more (f + 1), parseAux_members_last f, recordValue_eq]

theorem parseAux_elems_records (L : List Record) :
    ∀ (r : Record) (acc : List JVal) (f : Nat) (rest : JSString),
      parseAux (f + L.length + 7) (.elems acc)
          (joinElems ((r :: L).map stringifyRecord) ++ 0x5D :: rest) =
        some (.arr (acc ++ (r :: L).map recordValue), rest) := by
  induction L with
  | nil =>
    intro r acc f rest
    simp only [List.map_cons, List.map_nil, joinElems, List.length_nil, Nat.add_zero]
    rw [parseAux, parseAux_value_record]
    simp only [skipWS_cons_of_not_ws 0x5D _ (by decide)]
    simp
  | cons r1 L1 ih =>
    intro r acc f rest
    have h3 : js "," = [0x2C] := rfl
    simp only [List.map_cons, joinElems, List.length_cons, h3, List.append_assoc,
      List.cons_append, List.nil_append]
    rw [show f + (L1.length + 1) + 7 = (f + L1.length + 7) + 1 from by omega, parseAux,
      show f + L1.length + 7 = (f + L1.length + 1) + 6 from by omega, parseAux_value_record]
    simp only [skipWS_cons_of_not_ws 0x2C _ (by decide), if_true]
    have := ih r1 (acc ++ [recordValue r]) f rest
    simp only [List.map_cons] at this
    rw [show f + L1.length + 1 + 6 = f + L1.length + 7 from by omega, this]
    simp

theorem length_stringifyRecord_pos (r : Record) : 0 < (stringifyRecord r).length := by
  have := congrArg List.length (stringifyRecord_append r [])
  rw [List.append_nil] at this
  rw [this]
  simp

theorem length_joinElems_records (L : List Record) :
    L.length ≤ (joinElems (L.map stringifyRecord)).length := by
  induction L with
  | nil => simp [joinElems]
  | cons r L ih =>
    cases L with
    | nil =>
      have := length_stringifyRecord_pos r
      simp only [List.map_cons, List.map_nil, joinElems, List.length_cons, List.length_nil]
      omega
    | cons r1 L1 =>
      have := length_stringifyRecord_pos r
      simp only [List.map_cons, joinElems, List.length_append, List.length_cons] at ih ⊢
      omega

theorem joinElems_records_head (r : Record) (L : List Record) (rest : JSString) :
    ∃ t, joinElems ((r :: L).map stringifyRecord) ++ rest = 0x7B :: t := by
  cases L with
  | nil =>
    simp only [List.map_cons, List.map_nil, joinElems]
    rw [stringifyRecord_append]
    exact ⟨_, rfl⟩
  | cons r1 L1 =>
    simp only [List.map_cons, joinElems, List.append_assoc]
    rw [stringifyRecord_append]
    exact ⟨_, rfl⟩

theorem stringify_ofList (L : List Record) :
    stringify (JSArray.ofList L) = 0x5B :: (joinElems (L.map stringifyRecord) ++ [0x5D]) := by
  have h1 : js "[" = [0x5B] := rfl
  have h2 : js "]" = [0x5D] := rfl
  have h3 : (fun r : Record => stringifyElem (some r)) = stringifyRecord := rfl
  simp only [stringify, JSArray.ofList, h1, h2, List.map_map, Function.comp_def, h3,
    List.cons_append, List.nil_append]

theorem jsonParse_stringify (L : List Record) :
    jsonParse (stringify (JSArray.ofList L)) = some (arrayValue L) := by
  rw [stringify_ofList]
  cases L with
  | nil => rfl
  | cons r L1 =>
    have hlen := length_joinElems_records (r :: L1)
    obtain ⟨t, ht⟩ := joinElems_records_head r L1 [0x5D]
    have hfuel : ∃ f, 2 * (0x5B :: (joinElems ((r :: L1).map stringifyRecord) ++ [0x5D])).length + 2 =
        (f + L1.length + 7) + 1 := by
      refine ⟨2 * (0x5B :: (joinElems ((r :: L1).map stringifyRecord) ++ [0x5D])).length + 2 -
        (L1.length + 8), ?_⟩
      simp only [List.length_cons, List.length_append, List.length_nil] at hlen ⊢
      omega
    obtain ⟨f, hf⟩ := hfuel
    unfold jsonParse
    rw [hf, parseAux, skipWS_cons_of_not_ws _ _ (by decide)]
    simp only [if_true]
    rw [ht, skipWS_cons_of_not_ws _ _ (by decide)]
    simp only [show ¬ ((0x7B : Nat) = 0x5D) by decide, if_false]
    rw [← ht, parseAux_elems_records]
    simp [skipWS, arrayValue]

theorem stringify_ne_nil (a : JSArray) : stringify a ≠ [] := by
  have h1 : js "[" = [0x5B] := rfl
  simp [stringify, h1]

theorem recordValue_injective (r1 r2 : Record) (h : recordValue r1 = recordValue r2) :
    r1 = r2 := by
  cases r1
  cases r2
  simp only [recordValue, JVal.obj.injEq, List.cons.injEq, Prod.mk.injEq, JVal.str.injEq,
    true_and, and_true] at h
  obtain ⟨h1, h2, h3, h4⟩ := h
  subst h1 h2 h3 h4
  rfl

theorem arrayValue_injective (L1 L2 : List Record) (h : arrayValue L1 = arrayValue L2) :
    L1 = L2 := by
  simp only [arrayValue, JVal.arr.injEq] at h
  exact List.map_injective_iff.mpr (fun a b hab => recordValue_injective a b hab) h

/-- C10: when the record list `L` has been saved, `loadFromStorage` reads back the array
whose elements are, in order, the objects of the records of `L` with their four field strings
unchanged; that value determines `L` (same length, same order, same fields), and parsing
the saved text throws no error. -/
theorem load_after_save (s : State) (L : List Record) (hL : s.students = JSArray.ofList L) :
    loadFromStorage (saveAndRender s).storage = arrayValue L ∧
    (∀ L1 : List Record, loadFromStorage (saveAndRender s).storage = arrayValue L1 → L1 = L) ∧
    (∃ text, (saveAndRender s).storage = some text ∧ jsonParse text = some (arrayValue L)) := by
  have hload : loadFromStorage (saveAndRender s).storage = arrayValue L := by
    simp only [saveAndRender, loadFromStorage, hL, List.isEmpty_iff, stringify_ne_nil,
      if_false, jsonParse_stringify]
  refine ⟨hload, ?_, ?_⟩
  · intro L1 h1
    rw [hload] at h1
    exact arrayValue_injective _ _ h1.symm
  · exact ⟨stringify s.students, rfl, by rw [hL, jsonParse_stringify]⟩

/-- Witness for C10: Jane Doe is added to an empty list, which saves it; loading then gives
the one-element array holding that record. -/
theorem load_after_save_witness :
    (submit (sampleState [] none
        { name := js "Jane Doe", id := js "101", cls := js "10A", rollNo := js "5" })).students =
      JSArray.ofList [janeDoe] ∧
    loadFromStorage (saveAndRender (submit (sampleState [] none
        { name := js "Jane Doe", id := js "101", cls := js "10A", rollNo := js "5" }))).storage =
      arrayValue [janeDoe] :=
  ⟨by decide,
   (load_after_save (submit (sampleState [] none
        { name := js "Jane Doe", id := js "101", cls := js "10A", rollNo := js "5" }))
      [janeDoe] (by decide)).1⟩

/-! ## Persistence after a mutation -/

theorem submit_storage (s : State) (h : formValid s.form) :
    (submit s).storage = some (stringify (submit s).students) := by
  rw [submit_of_formValid s h]
  rfl

theorem deleteRecord_storage (s : State) (index : Int) :
    (deleteRecord s index).storage = some (stringify (deleteRecord s index).students) := by
  unfold deleteRecord
  simp only
  split
  · rfl
  · split
    · split <;> rfl
    · rfl

theorem loadFromStorage_stringify (L : List Record) :
    loadFromStorage (some (stringify (JSArray.ofList L))) = arrayValue L := by
  simp only [loadFromStorage, List.isEmpty_iff, stringify_ne_nil, if_false, jsonParse_stringify]

/-! ## Loading missing or malformed data -/

/-- An absent slot, an empty text and a text that `JSON.parse` refuses all load as `[]`. -/
theorem loadFromStorage_of_unparsable :
    loadFromStorage none = .arr [] ∧ loadFromStorage (some []) = .arr [] ∧
    ∀ text : JSString, jsonParse text = none → loadFromStorage (some text) = .arr [] := by
  refine ⟨rfl, rfl, fun text h => ?_⟩
  simp only [loadFromStorage, h]
  split <;> rfl

/-- C12: a slot holding text that parses to something other than an array is not loaded as
the empty list: `null` loads as `null`, `42` as the number 42, `{}` as an empty object and
`[1]` as an array of a number, none of which is the empty array. -/
theorem loadFromStorage_non_array :
    loadFromStorage (some (js "null")) = .null ∧
    loadFromStorage (some (js "42")) = .num (js "42") ∧
    loadFromStorage (some (js "\x7b\x7d")) = .obj [] ∧
    loadFromStorage (some (js "[1]")) = .arr [.num (js "1")] ∧
    loadFromStorage (some (js "null")) ≠ arrayValue [] ∧
    loadFromStorage (some (js "42")) ≠ arrayValue [] ∧
    loadFromStorage (some (js "\x7b\x7d")) ≠ arrayValue [] ∧
    loadFromStorage (some (js "[1]")) ≠ arrayValue [] := by
  have h1 : loadFromStorage (some (js "null")) = .null := rfl
  have h2 : loadFromStorage (some (js "42")) = .num (js "42") := rfl
  have h3 : loadFromStorage (some (js "\x7b\x7d")) = .obj [] := rfl
  have h4 : loadFromStorage (some (js "[1]")) = .arr [.num (js "1")] := rfl
  refine ⟨h1, h2, h3, h4, ?_, ?_, ?_, ?_⟩
  · rw [h1]; intro h; cases h
  · rw [h2]; intro h; cases h
  · rw [h3]; intro h; cases h
  · rw [h4]; intro h; cases h

/-! ## Cursor adjustment and out-of-range indices -/

theorem JSArray.get_eraseIdx_ofList (L : List Record) (i : Nat) (c : Int) (hci : c ≠ (i : Int)) :
    (JSArray.ofList (L.eraseIdx i)).get (if c > (i : Int) then c - 1 else c) =
      (JSArray.ofList L).get c := by
  by_cases h0 : 0 ≤ c
  · obtain ⟨n, rfl⟩ := Int.eq_ofNat_of_zero_le h0
    by_cases hgt : (n : Int) > (i : Int)
    · have hn : i < n := by omega
      have hcast : ((n : Int) - 1) = ((n - 1 : Nat) : Int) := by omega
      rw [if_pos hgt, hcast, JSArray.get_ofList, JSArray.get_ofList, List.getElem?_eraseIdx]
      have : ¬ n - 1 < i := by omega
      simp only [this, if_false]
      congr 1
      omega
    · have hn : n < i := by omega
      rw [if_neg hgt, JSArray.get_ofList, JSArray.get_ofList, List.getElem?_eraseIdx]
      simp [hn]
  · have hgt : ¬ c > (i : Int) := by omega
    rw [if_neg hgt]
    simp [JSArray.get, JSArray.ofList, h0]

/-- C13: for a valid delete index `i` of the record list and a held edit cursor `c`, after
`deleteRecord(i)` the cursor is absent if `c = i`, is `c - 1` if `c > i` and is `c` if
`c < i`; whenever `c` differs from `i`, the new cursor reads the same record from the new
list as `c` read from the old one. -/
theorem deleteRecord_cursor (s : State) (L : List Record) (i : Nat) (c : Int)
    (hL : s.students = JSArray.ofList L) (hi : i < L.length) (hc : s.editingIndex = some c) :
    (c = (i : Int) → (deleteRecord s (i : Int)).editingIndex = none) ∧
    (c > (i : Int) → (deleteRecord s (i : Int)).editingIndex = some (c - 1)) ∧
    (c < (i : Int) → (deleteRecord s (i : Int)).editingIndex = some c) ∧
    (c ≠ (i : Int) →
      ∃ c1, (deleteRecord s (i : Int)).editingIndex = some c1 ∧
        (deleteRecord s (i : Int)).students.get c1 = s.students.get c) := by
  have hcur := deleteRecord_editingIndex s (i : Int)
  rw [hc] at hcur
  simp only at hcur
  have hst : (deleteRecord s (i : Int)).students = JSArray.ofList (L.eraseIdx i) := by
    rw [deleteRecord_students, hL, JSArray.splice_ofList L i hi]
  refine ⟨?_, ?_, ?_, ?_⟩
  · intro h
    rw [hcur, if_pos h]
  · intro h
    have h1 : ¬ c = (i : Int) := by omega
    rw [hcur, if_neg h1, if_pos h]
  · intro h
    have h1 : ¬ c = (i : Int) := by omega
    have h2 : ¬ c > (i : Int) := by omega
    rw [hcur, if_neg h1, if_neg h2]
  · intro h
    refine ⟨if c > (i : Int) then c - 1 else c, ?_, ?_⟩
    · rw [hcur, if_neg h]
      split <;> rfl
    · rw [hst, hL]
      exact JSArray.get_eraseIdx_ofList L i c h

/-- Witness for C13: a cursor at index 1 becomes index 0 when index 0 is deleted, and still
reads the same record. -/
theorem deleteRecord_cursor_witness :
    (deleteRecord (sampleState [janeDoe, bond] (some 1) blankForm)
        ((0 : Nat) : Int)).editingIndex = some (1 - 1) ∧
    ∃ c1, (deleteRecord (sampleState [janeDoe, bond] (some 1) blankForm)
        ((0 : Nat) : Int)).editingIndex = some c1 ∧
      (deleteRecord (sampleState [janeDoe, bond] (some 1) blankForm)
        ((0 : Nat) : Int)).students.get c1 =
        (sampleState [janeDoe, bond] (some 1) blankForm).students.get 1 :=
  ⟨(deleteRecord_cursor (sampleState [janeDoe, bond] (some 1) blankForm) [janeDoe, bond] 0 1
      rfl (by decide) rfl).2.1 (by decide),
   (deleteRecord_cursor (sampleState [janeDoe, bond] (some 1) blankForm) [janeDoe, bond] 0 1
      rfl (by decide) rfl).2.2.2 (by decide)⟩

theorem JSArray.splice_one_ofList (L : List Record) (start : Int) :
    (JSArray.ofList L).splice start 1 =
      JSArray.ofList (L.eraseIdx
        (if start < 0 then ((L.length : Int) + start).toNat else min start.toNat L.length)) := by
  have key : ∀ a : Nat, a ≤ L.length →
      List.take a (L.map some) ++ List.drop (a + min 1 (L.length - a)) (L.map some) =
        (L.eraseIdx a).map some := by
    intro a ha
    by_cases hlt : a < L.length
    · have h2 : min 1 (L.length - a) = 1 := Nat.min_eq_left (by omega)
      rw [h2, List.eraseIdx_eq_take_drop_succ, List.map_append, List.map_take, List.map_drop]
    · have hEq : a = L.length := by omega
      subst hEq
      rw [List.eraseIdx_of_length_le (Nat.le_refl _)]
      simp
  have ha : (if start < 0 then ((L.length : Int) + start).toNat else min start.toNat L.length) ≤
      L.length := by
    split <;> omega
  simp only [JSArray.splice, JSArray.ofList, List.length_map]
  rw [key _ ha]

/-- C14 (as stated, refuted): the index `-1` is not a position of a two-record list, yet
`deleteRecord(-1)` removes the last record and moves the cursor from `0` to `-1`. -/
theorem deleteRecord_negative_removes_last :
    (deleteRecord (sampleState [janeDoe, bond] (some 0) blankForm) (-1)).students =
      JSArray.ofList [janeDoe] ∧
    (deleteRecord (sampleState [janeDoe, bond] (some 0) blankForm) (-1)).students ≠
      (sampleState [janeDoe, bond] (some 0) blankForm).students ∧
    (deleteRecord (sampleState [janeDoe, bond] (some 0) blankForm) (-1)).editingIndex =
      some (-1) := by
  decide

/-- C14 (amended): for an index at or past the length of the record list, `deleteRecord`
leaves the list unchanged, leaves an absent cursor absent and leaves a cursor below the index
(so every valid cursor) unchanged; the whole state is then as before except that the storage
slot is rewritten with the serialization of the unchanged list.  A negative index is counted
from the end and removes the element at `max (length + index) 0`. -/
theorem deleteRecord_out_of_range (s : State) (L : List Record) (i : Int)
    (hL : s.students = JSArray.ofList L) :
    ((L.length : Int) ≤ i →
      (deleteRecord s i).students = JSArray.ofList L ∧
      (deleteRecord s i).students.length = L.length ∧
      (s.editingIndex = none → (deleteRecord s i).editingIndex = none) ∧
      (∀ c, s.editingIndex = some c → c < i → (deleteRecord s i).editingIndex = some c) ∧
      ((∀ c, s.editingIndex = some c → c < i) →
        deleteRecord s i = { s with storage := some (stringify s.students) })) ∧
    (i < 0 →
      (deleteRecord s i).students =
        JSArray.ofList (L.eraseIdx ((L.length : Int) + i).toNat)) := by
  have hst := deleteRecord_students s i
  rw [hL, JSArray.splice_one_ofList] at hst
  have hcur := deleteRecord_editingIndex s i
  constructor
  · intro hi
    have h0 : ¬ i < 0 := by omega
    have hmin : min i.toNat L.length = L.length := by omega
    rw [if_neg h0, hmin, List.eraseIdx_of_length_le (Nat.le_refl _)] at hst
    have hnone : s.editingIndex = none → (deleteRecord s i).editingIndex = none := by
      intro h
      rw [hcur, h]
    have hsome : ∀ c, s.editingIndex = some c → c < i →
        (deleteRecord s i).editingIndex = some c := by
      intro c h hlt
      have h1 : ¬ c = i := by omega
      have h2 : ¬ c > i := by omega
      rw [hcur, h]
      simp only [h1, h2, if_false]
    refine ⟨hst, ?_, hnone, hsome, ?_⟩
    · rw [hst]
      simp [JSArray.ofList, JSArray.length]
    · intro hall
      have hspl : s.students.splice i 1 = s.students := by
        rw [hL, JSArray.splice_one_ofList, if_neg h0, hmin,
          List.eraseIdx_of_length_le (Nat.le_refl _)]
      unfold deleteRecord
      simp only [hspl, saveAndRender]
      cases hc : s.editingIndex with
      | none => simp
      | some c =>
        have hlt := hall c hc
        have h1 : ¬ c = i := by omega
        have h2 : ¬ c > i := by omega
        simp [h1, h2]
  · intro hi
    rw [if_pos hi] at hst
    exact hst

/-- Witness for C14: deleting index 5 of a two-record list with the cursor at 1. -/
theorem deleteRecord_out_of_range_witness :
    ((([janeDoe, bond] : List Record).length : Nat) : Int) ≤ 5 ∧
    (deleteRecord (sampleState [janeDoe, bond] (some 1) blankForm) 5).students =
      JSArray.ofList [janeDoe, bond] ∧
    (deleteRecord (sampleState [janeDoe, bond] (some 1) blankForm) 5).editingIndex = some 1 :=
  ⟨by decide,
   ((deleteRecord_out_of_range (sampleState [janeDoe, bond] (some 1) blankForm)
      [janeDoe, bond] 5 rfl).1 (by decide)).1,
   ((deleteRecord_out_of_range (sampleState [janeDoe, bond] (some 1) blankForm)
      [janeDoe, bond] 5 rfl).1 (by decide)).2.2.2.1 1 rfl (by decide)⟩

/-- C15 (as stated, refuted): `startEdit(5)` on a one-record list throws a `TypeError`, and
so does `startEdit(-1)`. -/
theorem startEdit_out_of_range_throws :
    startEdit (sampleState [janeDoe] none blankForm) 5 = .error .typeError ∧
    startEdit (sampleState [janeDoe] none blankForm) (-1) = .error .typeError :=
  ⟨rfl, rfl⟩

/-- C15 (amended): for an index that is not a position of the record list (negative, or at or
past the length), `startEdit` throws a `TypeError` before it writes anything, so the state
(record list, edit cursor, form fields and all the rest) is as before. -/
theorem startEdit_out_of_range (s : State) (L : List Record) (i : Int)
    (hL : s.students = JSArray.ofList L) (hi : i < 0 ∨ (L.length : Int) ≤ i) :
    startEdit s i = .error .typeError ∧ step s (.startEdit i) = s := by
  have hget : s.students.get i = none := by
    rw [hL]
    by_cases h0 : 0 ≤ i
    · obtain ⟨n, rfl⟩ := Int.eq_ofNat_of_zero_le h0
      rw [JSArray.get_ofList]
      apply List.getElem?_eq_none
      omega
    · simp [JSArray.get, JSArray.ofList, h0]
  have hstart : startEdit s i = .error .typeError := by
    simp only [startEdit, hget]
  refine ⟨hstart, ?_⟩
  simp only [step, hstart]

/-- Witness for C15: index 1 of a one-record list. -/
theorem startEdit_out_of_range_witness :
    ((([janeDoe] : List Record).length : Nat) : Int) ≤ 1 ∧
    startEdit (sampleState [janeDoe] none adaForm) 1 = .error .typeError ∧
    step (sampleState [janeDoe] none adaForm) (.startEdit 1) = sampleState [janeDoe] none adaForm :=
  ⟨by decide,
   startEdit_out_of_range (sampleState [janeDoe] none adaForm) [janeDoe] 1 rfl
     (Or.inr (by decide))⟩

/-- C16 (as stated, refuted): with a one-record list and the cursor at 3, submit does not
append: the array gets length 4, with holes at the indices 1 and 2. -/
theorem submit_cursor_past_end_leaves_holes :
    (submit (sampleState [janeDoe] (some 3) adaForm)).students =
      { elems := [some janeDoe, none, none, some ada], extra := [] } ∧
    (submit (sampleState [janeDoe] (some 3) adaForm)).students ≠
      JSArray.ofList ([janeDoe] ++ [ada]) ∧
    (submit (sampleState [janeDoe] (some 3) adaForm)).students.length = 4 := by
  decide

/-- C16 (amended): with a cursor `c` at or past the length of the record list `L` and four
valid fields, submit assigns the new record to the key `c`.  When `c` is an array index
(`c < 2^32 - 1`) the array becomes `L`, then `c - length` holes, then the record, of length
`c + 1`; it is `L` followed by that one record exactly in the case `c = length`.  When
`c` is `2^32 - 1` or more, the record becomes an ordinary property under the key `c` and the
elements and the length of the list stay as they were. -/
theorem submit_cursor_out_of_range (s : State) (L : List Record) (c : Int)
    (hL : s.students = JSArray.ofList L) (hcur : s.editingIndex = some c)
    (hc : (L.length : Int) ≤ c)
    (hname : (validateName (some s.form.name)).valid = true)
    (hid : (validateStudentId (some s.form.id)).valid = true)
    (hcls : (validateClass (some s.form.cls)).valid = true)
    (hroll : (validateRollNo (some s.form.rollNo)).valid = true) :
    (c < 4294967295 →
      (submit s).students =
        { elems := L.map some ++ List.replicate (c.toNat - L.length) none ++
            [some { name := trim s.form.name, studentId := trim s.form.id,
                    cls := trim s.form.cls, rollNo := trim s.form.rollNo }],
          extra := [] } ∧
      ((submit s).students.length : Int) = c + 1 ∧
      (c = (L.length : Int) →
        (submit s).students =
          JSArray.ofList (L ++ [{ name := trim s.form.name, studentId := trim s.form.id,
                                  cls := trim s.form.cls, rollNo := trim s.form.rollNo }]))) ∧
    (4294967295 ≤ c →
      (submit s).students =
        { elems := L.map some,
          extra := [(c, { name := trim s.form.name, studentId := trim s.form.id,
                          cls := trim s.form.cls, rollNo := trim s.form.rollNo })] } ∧
      (submit s).students.length = L.length) := by
  have hs := submit_of_formValid s ⟨hname, hid, hcls, hroll⟩
  rw [hcur] at hs
  have hst : (submit s).students = s.students.set c (buildRecord s.form) := by
    rw [hs]; rfl
  have h0 : 0 ≤ c := by omega
  have hlt : ¬ c.toNat < (JSArray.ofList L).elems.length := by
    simp only [JSArray.ofList, List.length_map]
    omega
  constructor
  · intro hmax
    have hset : (submit s).students =
        { elems := L.map some ++ List.replicate (c.toNat - L.length) none ++
            [some (buildRecord s.form)], extra := [] } := by
      rw [hst, hL, JSArray.set_of_index _ _ _ h0 hlt (by simpa [maxLength] using hmax)]
      simp only [JSArray.ofList, List.length_map]
    refine ⟨hset, ?_, ?_⟩
    · rw [hset]
      simp only [JSArray.length, List.length_append, List.length_map, List.length_replicate,
        List.length_singleton]
      omega
    · intro hEq
      have hz : c.toNat - L.length = 0 := by omega
      rw [hset, hz]
      simp [JSArray.ofList, buildRecord]
  · intro hmax
    have n1 : ¬ (0 ≤ c ∧ c.toNat < (JSArray.ofList L).elems.length) := fun hh => hlt hh.2
    have n2 : ¬ (0 ≤ c ∧ c < (maxLength : Int)) := by
      simp only [maxLength]
      omega
    have hset : (submit s).students =
        { elems := L.map some, extra := [(c, buildRecord s.form)] } := by
      rw [hst, hL, JSArray.set_of_other _ _ _ n1 n2]
      simp [JSArray.ofList]
    refine ⟨hset, ?_⟩
    rw [hset]
    simp [JSArray.length]

/-- Witness for C16: on a one-record list, the cursor 1 appends, the cursor 3 leaves two
holes, and the cursor `2^32 - 1` leaves the list as it was. -/
theorem submit_cursor_out_of_range_witness :
    ((([janeDoe] : List Record).length : Nat) : Int) ≤ 1 ∧
    (submit (sampleState [janeDoe] (some 1) adaForm)).students =
      JSArray.ofList ([janeDoe] ++ [{ name := trim adaForm.name, studentId := trim adaForm.id,
                                      cls := trim adaForm.cls, rollNo := trim adaForm.rollNo }]) ∧
    ((submit (sampleState [janeDoe] (some 3) adaForm)).students.length : Int) = 3 + 1 ∧
    (submit (sampleState [janeDoe] (some 4294967295) adaForm)).students.length =
      ([janeDoe] : List Record).length :=
  ⟨by decide,
   ((submit_cursor_out_of_range (sampleState [janeDoe] (some 1) adaForm) [janeDoe] 1 rfl rfl
      (by decide) (by decide) (by decide) (by decide) (by decide)).1 (by decide)).2.2
      (by decide),
   ((submit_cursor_out_of_range (sampleState [janeDoe] (some 3) adaForm) [janeDoe] 3 rfl rfl
      (by decide) (by decide) (by decide) (by decide) (by decide)).1 (by decide)).2.1,
   ((submit_cursor_out_of_range (sampleState [janeDoe] (some 4294967295) adaForm) [janeDoe]
      4294967295 rfl rfl (by decide) (by decide) (by decide) (by decide) (by decide)).2
      (by decide)).2⟩

/-! ## The edit cursor invariant -/

theorem submit_editingIndex (s : State) (h : formValid s.form) :
    (submit s).editingIndex = none := by
  rw [submit_of_formValid s h]
  rfl

theorem submit_students_some (s : State) (c : Int) (h : formValid s.form)
    (hcur : s.editingIndex = some c) :
    (submit s).students = s.students.set c (buildRecord s.form) := by
  have hs := submit_of_formValid s h
  rw [hcur] at hs
  rw [hs]
  rfl

theorem submit_students_none (s : State) (h : formValid s.form)
    (hcur : s.editingIndex = none) :
    (submit s).students = s.students.push (buildRecord s.form) := by
  have hs := submit_of_formValid s h
  rw [hcur] at hs
  rw [hs]
  rfl

theorem JSArray.set_elems_of_valid (a : JSArray) (c : Int) (r : Record) (h0 : 0 ≤ c)
    (hlt : c < (a.length : Int)) :
    (a.set c r).elems = a.elems.set c.toNat (some r) ∧ (a.set c r).length = a.length := by
  have h1 : c.toNat < a.elems.length := by
    unfold JSArray.length at hlt
    omega
  rw [JSArray.set_of_lt _ _ _ h0 h1]
  simp only [JSArray.length, List.length_set, and_self]

theorem JSArray.splice_one_length_valid (a : JSArray) (i : Int) (h0 : 0 ≤ i)
    (hlt : i < (a.length : Int)) : (a.splice i 1).length + 1 = a.length := by
  unfold JSArray.length at hlt ⊢
  have h1 : ¬ i < 0 := by omega
  simp only [JSArray.splice, h1, if_false, List.length_append, List.length_take,
    List.length_drop]
  omega

theorem NoHoles_submit (s : State) (hc : CursorInv s) (h : NoHoles s) : NoHoles (submit s) := by
  by_cases hv : formValid s.form
  · cases hcur : s.editingIndex with
    | none =>
      intro e he
      rw [submit_students_none s hv hcur] at he
      simp only [JSArray.push, List.mem_append, List.mem_singleton] at he
      rcases he with he | he
      · exact h e he
      · rw [he]; simp
    | some c =>
      obtain ⟨h0, hlt⟩ := hc c hcur
      intro e he
      rw [submit_students_some s c hv hcur,
        (JSArray.set_elems_of_valid s.students c _ h0 hlt).1] at he
      rcases List.mem_or_eq_of_mem_set he with he | he
      · exact h e he
      · rw [he]; simp
  · intro e he
    rw [(submit_of_not_formValid s hv).1] at he
    exact h e he

theorem CursorInv_submit (s : State) (hc : CursorInv s) : CursorInv (submit s) := by
  by_cases hv : formValid s.form
  · intro c h
    rw [submit_editingIndex s hv] at h
    cases h
  · obtain ⟨e1, e2, _⟩ := submit_of_not_formValid s hv
    intro c h
    rw [e2] at h
    rw [e1]
    exact hc c h

theorem startEdit_ok (s s1 : State) (index : Int) (h : startEdit s index = .ok s1) :
    ∃ r, s.students.get index = some r ∧ s1.students = s.students ∧
      s1.editingIndex = some index ∧
      s1.form = { name := r.name, id := r.studentId, cls := r.cls, rollNo := r.rollNo } ∧
      s1.formDefault = s.formDefault ∧ s1.storage = s.storage := by
  unfold startEdit at h
  cases hg : s.students.get index with
  | none =>
    rw [hg] at h
    cases h
  | some r =>
    rw [hg] at h
    simp only [Except.ok.injEq] at h
    subst h
    exact ⟨r, rfl, rfl, rfl, rfl, rfl, rfl⟩

theorem step_startEdit_cases (s : State) (index : Int) :
    step s (.startEdit index) = s ∨
      ((step s (.startEdit index)).students = s.students ∧
        (step s (.startEdit index)).editingIndex = some index) := by
  simp only [step]
  cases h : startEdit s index with
  | error err => exact Or.inl rfl
  | ok s1 =>
    obtain ⟨r, _, h2, h3, _⟩ := startEdit_ok s s1 index h
    exact Or.inr ⟨h2, h3⟩

theorem CursorInv_deleteRecord (s : State) (index : Int) (h0 : 0 ≤ index)
    (hlt : index < (s.students.length : Int)) (hc : CursorInv s) :
    CursorInv (deleteRecord s index) := by
  have hlen := JSArray.splice_one_length_valid s.students index h0 hlt
  intro c h
  rw [deleteRecord_students]
  rw [deleteRecord_editingIndex] at h
  cases he : s.editingIndex with
  | none => rw [he] at h; cases h
  | some e =>
    rw [he] at h
    obtain ⟨g0, glt⟩ := hc e he
    by_cases e1 : e = index
    · simp only [e1, if_true] at h
      cases h
    · simp only [e1, if_false] at h
      by_cases e2 : e > index
      · simp only [e2, if_true, Option.some.injEq] at h
        omega
      · simp only [e2, if_false, Option.some.injEq] at h
        omega

theorem NoHoles_deleteRecord (s : State) (index : Int) (h : NoHoles s) :
    NoHoles (deleteRecord s index) := by
  intro e he
  rw [deleteRecord_students] at he
  exact h e ((JSArray.splice_one_elems s.students index).1 e he)

theorem cursor_step (s : State) (a : Action) (hv : actionValid s a)
    (h : CursorInv s ∧ NoHoles s) : CursorInv (step s a) ∧ NoHoles (step s a) := by
  obtain ⟨hc, hn⟩ := h
  cases a with
  | submit => exact ⟨CursorInv_submit s hc, NoHoles_submit s hc hn⟩
  | startEdit index =>
    rcases step_startEdit_cases s index with hs | ⟨hs1, hs2⟩
    · rw [hs]; exact ⟨hc, hn⟩
    · refine ⟨?_, ?_⟩
      · intro c hcc
        rw [hs2] at hcc
        injection hcc with hcc
        rw [hs1, ← hcc]
        exact hv
      · intro e he
        rw [hs1] at he
        exact hn e he
  | cancel =>
    refine ⟨?_, hn⟩
    intro c hcc
    cases hcc
  | deleteRecord index =>
    exact ⟨CursorInv_deleteRecord s index hv.1 hv.2 hc, NoHoles_deleteRecord s index hn⟩
  | input f => exact ⟨hc, hn⟩

theorem cursor_run (actions : List Action) (s : State) (hv : validRun s actions)
    (h : CursorInv s ∧ NoHoles s) :
    CursorInv (run s actions) ∧ NoHoles (run s actions) := by
  induction actions generalizing s with
  | nil => exact h
  | cons a rest ih => exact ih (step s a) hv.2 (cursor_step s a hv.1 h)

theorem NoHoles_get (s : State) (c : Int) (hn : NoHoles s) (h0 : 0 ≤ c)
    (hlt : c < (s.students.length : Int)) : ∃ r, s.students.get c = some r := by
  have h1 : c.toNat < s.students.elems.length := by
    unfold JSArray.length at hlt
    omega
  have hmem : s.students.elems[c.toNat] ∈ s.students.elems := List.getElem_mem h1
  have hne := hn _ hmem
  rw [JSArray.get_of_lt _ _ h0 h1, List.getD_eq_getElem?_getD, List.getElem?_eq_getElem h1,
    Option.getD_some]
  cases hq : s.students.elems[c.toNat] with
  | none => exact absurd hq hne
  | some r => exact ⟨r, rfl⟩

/-- C17: starting from a record list with no cursor held, after any sequence of submit,
cancel, typing, `startEdit(i)` and `deleteRecord(i)` in which every `i` is a valid index when
it is passed, the edit cursor is absent or a valid index of the current list; hence a submit
that passes validation with a cursor held overwrites the record at that index and leaves the
length of the list unchanged. -/
theorem reachable_cursor_valid (s0 : State) (L0 : List Record) (actions : List Action)
    (hL : s0.students = JSArray.ofList L0) (hcur : s0.editingIndex = none)
    (hv : validRun s0 actions) :
    (∀ c, (run s0 actions).editingIndex = some c →
      0 ≤ c ∧ c < ((run s0 actions).students.length : Int)) ∧
    (∀ c, (run s0 actions).editingIndex = some c → formValid (run s0 actions).form →
      (∃ r, (run s0 actions).students.get c = some r) ∧
      (submit (run s0 actions)).students.get c = some (buildRecord (run s0 actions).form) ∧
      (submit (run s0 actions)).students.length = (run s0 actions).students.length) := by
  have h0 : CursorInv s0 ∧ NoHoles s0 := by
    refine ⟨?_, ?_⟩
    · intro c hc
      rw [hcur] at hc
      cases hc
    · intro e he
      rw [hL] at he
      simp only [JSArray.ofList, List.mem_map] at he
      obtain ⟨r, _, hr⟩ := he
      rw [← hr]
      simp
  obtain ⟨hc, hn⟩ := cursor_run actions s0 hv h0
  refine ⟨hc, ?_⟩
  intro c hcc hvalid
  obtain ⟨c0, clt⟩ := hc c hcc
  obtain ⟨e1, e2⟩ := JSArray.set_elems_of_valid (run s0 actions).students c
    (buildRecord (run s0 actions).form) c0 clt
  refine ⟨NoHoles_get _ c hn c0 clt, ?_, ?_⟩
  · have h1 : c.toNat < (run s0 actions).students.elems.length := by
      unfold JSArray.length at clt
      omega
    have h2 : c.toNat < ((run s0 actions).students.set c
        (buildRecord (run s0 actions).form)).elems.length := by
      rw [e1, List.length_set]
      exact h1
    rw [submit_students_some _ c hvalid hcc, JSArray.get_of_lt _ _ c0 h2, e1,
      List.getD_eq_getElem?_getD, List.getElem?_set_self h1, Option.getD_some]
  · rw [submit_students_some _ c hvalid hcc, e2]

/-- Witness for C17: two records are added, the second is opened for editing and the first
deleted, which moves the cursor from 1 to 0. -/
theorem reachable_cursor_valid_witness :
    validRun (sampleState [] none blankForm)
      [.input adaForm, .submit, .input adaForm, .submit, .startEdit 1, .deleteRecord 0] ∧
    (run (sampleState [] none blankForm)
      [.input adaForm, .submit, .input adaForm, .submit, .startEdit 1,
        .deleteRecord 0]).editingIndex = some 0 ∧
    ∀ c, (run (sampleState [] none blankForm)
      [.input adaForm, .submit, .input adaForm, .submit, .startEdit 1,
        .deleteRecord 0]).editingIndex = some c →
      0 ≤ c ∧ c < ((run (sampleState [] none blankForm)
        [.input adaForm, .submit, .input adaForm, .submit, .startEdit 1,
          .deleteRecord 0]).students.length : Int) :=
  ⟨by decide, by decide,
   (reachable_cursor_valid (sampleState [] none blankForm) []
      [.input adaForm, .submit, .input adaForm, .submit, .startEdit 1, .deleteRecord 0]
      rfl rfl (by decide)).1⟩

/-! ## Persistence after a mutation: the claim -/

/-- C11: after every successful submit (add or update, whatever the cursor) and after every
`deleteRecord` call (whatever the index), the storage slot holds the serialization of the
array now in memory, and whenever that array is a record list, loading at that point returns
exactly that list.  It is a record list after a submit on a record list with the cursor
absent or at a valid index, and after any delete on a record list. -/
theorem persisted_after_mutation (s : State) (index : Int) :
    (formValid s.form →
      (submit s).storage = some (stringify (submit s).students) ∧
      (∀ L : List Record, (submit s).students = JSArray.ofList L →
        loadFromStorage (submit s).storage = arrayValue L) ∧
      (∀ L : List Record, s.students = JSArray.ofList L →
        (∀ c, s.editingIndex = some c → 0 ≤ c ∧ c < (L.length : Int)) →
        ∃ L1, (submit s).students = JSArray.ofList L1 ∧
          loadFromStorage (submit s).storage = arrayValue L1)) ∧
    ((deleteRecord s index).storage = some (stringify (deleteRecord s index).students) ∧
      (∀ L : List Record, (deleteRecord s index).students = JSArray.ofList L →
        loadFromStorage (deleteRecord s index).storage = arrayValue L) ∧
      (∀ L : List Record, s.students = JSArray.ofList L →
        ∃ L1, (deleteRecord s index).students = JSArray.ofList L1 ∧
          loadFromStorage (deleteRecord s index).storage = arrayValue L1)) := by
  have hsub : formValid s.form → ∀ L : List Record, (submit s).students = JSArray.ofList L →
      loadFromStorage (submit s).storage = arrayValue L := by
    intro h L hL
    rw [submit_storage s h, hL, loadFromStorage_stringify]
  have hdel : ∀ L : List Record, (deleteRecord s index).students = JSArray.ofList L →
      loadFromStorage (deleteRecord s index).storage = arrayValue L := by
    intro L hL
    rw [deleteRecord_storage, hL, loadFromStorage_stringify]
  refine ⟨fun h => ⟨submit_storage s h, hsub h, fun L hL hc => ?_⟩, deleteRecord_storage s index,
    hdel, fun L hL => ?_⟩
  · cases hcur : s.editingIndex with
    | none =>
      have hst : (submit s).students = JSArray.ofList (L ++ [buildRecord s.form]) := by
        rw [submit_students_none s h hcur, hL]
        simp [JSArray.push, JSArray.ofList]
      exact ⟨_, hst, hsub h _ hst⟩
    | some c =>
      obtain ⟨c0, clt⟩ := hc c hcur
      obtain ⟨n, rfl⟩ := Int.eq_ofNat_of_zero_le c0
      have hst : (submit s).students = JSArray.ofList (L.set n (buildRecord s.form)) := by
        rw [submit_students_some s _ h hcur, hL, JSArray.set_ofList L n _ (by omega)]
      exact ⟨_, hst, hsub h _ hst⟩
  · have hst := deleteRecord_students s index
    rw [hL, JSArray.splice_one_ofList] at hst
    exact ⟨_, hst, hdel _ hst⟩

/-- Witness for C11: an update of index 0 of a two-record list, and a delete of index 1. -/
theorem persisted_after_mutation_witness :
    formValid adaForm ∧
    loadFromStorage (submit (sampleState [janeDoe, bond] (some 0) adaForm)).storage =
      arrayValue [ada, bond] ∧
    loadFromStorage (deleteRecord (sampleState [janeDoe, bond] (some 0) adaForm) 1).storage =
      arrayValue [janeDoe] :=
  ⟨by decide,
   ((persisted_after_mutation (sampleState [janeDoe, bond] (some 0) adaForm) 1).1
      (by decide)).2.1 _ (by decide),
   (persisted_after_mutation (sampleState [janeDoe, bond] (some 0) adaForm) 1).2.2.1 _
      (by decide)⟩

/-! ## Editing without a change, and the return to add mode -/

theorem trimmedRecord_buildRecord (f : Form) : trimmedRecord (buildRecord f) :=
  ⟨trim_trim _, trim_trim _, trim_trim _, trim_trim _⟩

theorem buildRecord_of_trimmed (r : Record) (h : trimmedRecord r) :
    buildRecord { name := r.name, id := r.studentId, cls := r.cls, rollNo := r.rollNo } = r := by
  obtain ⟨h1, h2, h3, h4⟩ := h
  cases r
  simp only [buildRecord] at *
  rw [h1, h2, h3, h4]

theorem JSArray.mem_set_elems (a : JSArray) (c : Int) (rec r : Record)
    (h : some r ∈ (a.set c rec).elems) : some r ∈ a.elems ∨ r = rec := by
  by_cases h1 : 0 ≤ c ∧ c.toNat < a.elems.length
  · rw [JSArray.set_of_lt _ _ _ h1.1 h1.2] at h
    rcases List.mem_or_eq_of_mem_set h with h | h
    · exact Or.inl h
    · exact Or.inr (Option.some.inj h)
  · by_cases h2 : 0 ≤ c ∧ c < (maxLength : Int)
    · rw [JSArray.set_of_index _ _ _ h2.1 (fun hh => h1 ⟨h2.1, hh⟩) h2.2] at h
      simp only [List.mem_append, List.mem_singleton] at h
      rcases h with (h | h) | h
      · exact Or.inl h
      · exact absurd (List.eq_of_mem_replicate h) (by simp)
      · exact Or.inr (Option.some.inj h)
    · rw [JSArray.set_of_other _ _ _ h1 h2] at h
      exact Or.inl h

theorem TrimInv_submit (s : State) (h : TrimInv s) : TrimInv (submit s) := by
  by_cases hv : formValid s.form
  · cases hcur : s.editingIndex with
    | none =>
      intro r hr
      rw [submit_students_none s hv hcur] at hr
      simp only [JSArray.push, List.mem_append, List.mem_singleton] at hr
      rcases hr with hr | hr
      · exact h r hr
      · rw [Option.some.inj hr]
        exact trimmedRecord_buildRecord _
    | some c =>
      intro r hr
      rw [submit_students_some s c hv hcur] at hr
      rcases JSArray.mem_set_elems _ _ _ _ hr with hr | hr
      · exact h r hr
      · rw [hr]
        exact trimmedRecord_buildRecord _
  · intro r hr
    rw [(submit_of_not_formValid s hv).1] at hr
    exact h r hr

theorem TrimInv_step (s : State) (a : Action) (h : TrimInv s) : TrimInv (step s a) := by
  cases a with
  | submit => exact TrimInv_submit s h
  | startEdit index =>
    rcases step_startEdit_cases s index with hs | ⟨hs1, _⟩
    · rw [hs]; exact h
    · intro r hr
      rw [hs1] at hr
      exact h r hr
  | cancel => exact h
  | deleteRecord index =>
    intro r hr
    have hr1 : some r ∈ (deleteRecord s index).students.elems := hr
    rw [deleteRecord_students] at hr1
    exact h r ((JSArray.splice_one_elems s.students index).1 _ hr1)
  | input f => exact h

theorem TrimInv_run (actions : List Action) (s : State) (h : TrimInv s) :
    TrimInv (run s actions) := by
  induction actions generalizing s with
  | nil => exact h
  | cons a rest ih => exact ih (step s a) (TrimInv_step s a h)

theorem JSArray.set_self (a : JSArray) (i : Nat) (r : Record) (hi : i < a.elems.length)
    (hr : a.elems[i] = some r) : a.set (i : Int) r = a := by
  have hset : a.elems.set i (some r) = a.elems := by
    apply List.ext_getElem?
    intro j
    rw [List.getElem?_set]
    by_cases hij : i = j
    · subst hij
      simp [hi, hr]
    · simp [hij]
  have h1 : ((i : Int)).toNat < a.elems.length := by
    rw [Int.toNat_ofNat]
    exact hi
  rw [JSArray.set_of_lt _ _ _ (Int.natCast_nonneg i) h1, Int.toNat_ofNat, hset]

theorem startEdit_submit_identity (s : State) (i : Nat) (hinv : Inv s) (ht : TrimInv s)
    (hi : i < s.students.length) :
    ∃ s1, startEdit s (i : Int) = .ok s1 ∧ formValid s1.form ∧
      (submit s1).students = s.students := by
  have hi1 : i < s.students.elems.length := hi
  have hmem : s.students.elems[i] ∈ s.students.elems := List.getElem_mem hi1
  obtain ⟨r, hr, hvalid⟩ := hinv.1 _ hmem
  have htrim : trimmedRecord r := ht r (hr ▸ hmem)
  have hget : s.students.get (i : Int) = some r := by
    have h1 : ((i : Int)).toNat < s.students.elems.length := by
      rw [Int.toNat_ofNat]
      exact hi1
    rw [JSArray.get_of_lt _ _ (Int.natCast_nonneg i) h1, Int.toNat_ofNat,
      List.getD_eq_getElem?_getD, List.getElem?_eq_getElem hi1, Option.getD_some, hr]
  cases hstart : startEdit s (i : Int) with
  | error err =>
    unfold startEdit at hstart
    rw [hget] at hstart
    cases hstart
  | ok s1 =>
    obtain ⟨r1, g1, g2, g3, g4, _⟩ := startEdit_ok s s1 (i : Int) hstart
    have hrr : r1 = r := by
      rw [hget] at g1
      exact (Option.some.inj g1).symm
    subst hrr
    have hform : formValid s1.form := by
      rw [g4]
      exact hvalid
    refine ⟨s1, rfl, hform, ?_⟩
    rw [submit_students_some s1 (i : Int) hform g3, g2, g4, buildRecord_of_trimmed r1 htrim]
    exact JSArray.set_self s.students i r1 hi1 hr

/-- C18: in every state reached from an empty record list by any sequence of submit,
start-edit, cancel and delete actions (with any typing in between), for every valid index `i`
the call `startEdit(i)` succeeds, the form it fills passes validation, and a submit made right
after it leaves the record list exactly as it was. -/
theorem edit_without_change_identity (s0 : State) (actions : List Action) (i : Nat)
    (hempty : s0.students = JSArray.ofList []) (hcur : s0.editingIndex = none)
    (hi : i < (run s0 actions).students.length) :
    ∃ s1, startEdit (run s0 actions) (i : Int) = .ok s1 ∧
      (validateName (some s1.form.name)).valid = true ∧
      (validateStudentId (some s1.form.id)).valid = true ∧
      (validateClass (some s1.form.cls)).valid = true ∧
      (validateRollNo (some s1.form.rollNo)).valid = true ∧
      (submit s1).students = (run s0 actions).students := by
  have h0 : Inv s0 := by
    refine ⟨?_, ?_, ?_⟩
    · intro e he
      rw [hempty] at he
      cases he
    · intro p hp
      rw [hempty] at hp
      cases hp
    · intro c hc
      rw [hcur] at hc
      cases hc
  have t0 : TrimInv s0 := by
    intro r hr
    rw [hempty] at hr
    cases hr
  obtain ⟨s1, e1, e2, e3⟩ :=
    startEdit_submit_identity (run s0 actions) i (Inv_run actions s0 h0)
      (TrimInv_run actions s0 t0) hi
  exact ⟨s1, e1, e2.1, e2.2.1, e2.2.2.1, e2.2.2.2, e3⟩

/-- Witness for C18: after two adds, editing index 1 and submitting at once. -/
theorem edit_without_change_identity_witness :
    (1 : Nat) < (run (sampleState [] none blankForm)
      [.input adaForm, .submit, .input { name := js " Jane Doe", id := js "101", cls := js "10A", rollNo := js "5" },
        .submit]).students.length ∧
    ∃ s1, startEdit (run (sampleState [] none blankForm)
      [.input adaForm, .submit, .input { name := js " Jane Doe", id := js "101", cls := js "10A", rollNo := js "5" },
        .submit]) ((1 : Nat) : Int) = .ok s1 ∧
      (validateName (some s1.form.name)).valid = true ∧
      (validateStudentId (some s1.form.id)).valid = true ∧
      (validateClass (some s1.form.cls)).valid = true ∧
      (validateRollNo (some s1.form.rollNo)).valid = true ∧
      (submit s1).students = (run (sampleState [] none blankForm)
        [.input adaForm, .submit, .input { name := js " Jane Doe", id := js "101", cls := js "10A", rollNo := js "5" },
          .submit]).students :=
  ⟨by decide,
   edit_without_change_identity (sampleState [] none blankForm) _ 1 rfl rfl (by decide)⟩

/-- C19: after a submit that passes validation the edit cursor is absent, whether the submit
added or updated; so the next submit that passes validation, with whatever the form then
holds, appends its record at the end.  After an update of index `i` of the record list `L`
the outcome of the two submits is `L` with index `i` replaced, followed by the second
record. -/
theorem submit_returns_to_add_mode (s : State)
    (hname : (validateName (some s.form.name)).valid = true)
    (hid : (validateStudentId (some s.form.id)).valid = true)
    (hcls : (validateClass (some s.form.cls)).valid = true)
    (hroll : (validateRollNo (some s.form.rollNo)).valid = true) :
    (submit s).editingIndex = none ∧
    (∀ f2 : Form, formValid f2 →
      (submit { submit s with form := f2 }).students.elems =
        (submit s).students.elems ++ [some (buildRecord f2)] ∧
      (submit { submit s with form := f2 }).students.extra = (submit s).students.extra) ∧
    (∀ (L : List Record) (i : Nat) (f2 : Form), s.students = JSArray.ofList L →
      s.editingIndex = some (i : Int) → i < L.length → formValid f2 →
      (submit { submit s with form := f2 }).students =
        JSArray.ofList (L.set i (buildRecord s.form) ++ [buildRecord f2])) := by
  have hv : formValid s.form := ⟨hname, hid, hcls, hroll⟩
  have hnone := submit_editingIndex s hv
  have hsecond : ∀ f2 : Form, formValid f2 →
      (submit { submit s with form := f2 }).students =
        (submit s).students.push (buildRecord f2) := by
    intro f2 hf2
    exact submit_students_none { submit s with form := f2 } hf2 hnone
  refine ⟨hnone, ?_, ?_⟩
  · intro f2 hf2
    rw [hsecond f2 hf2]
    exact ⟨rfl, rfl⟩
  · intro L i f2 hL hcur hi hf2
    rw [hsecond f2 hf2, submit_students_some s (i : Int) hv hcur, hL,
      JSArray.set_ofList L i _ hi]
    simp [JSArray.push, JSArray.ofList]

/-- Witness for C19: index 0 of a two-record list is updated, then a second record is typed
and submitted; it lands at the end. -/
theorem submit_returns_to_add_mode_witness :
    (validateName (some adaForm.name)).valid = true ∧
    (submit (sampleState [janeDoe, bond] (some 0) adaForm)).editingIndex = none ∧
    (submit { submit (sampleState [janeDoe, bond] (some 0) adaForm) with
        form := { name := js "Alan Turing", id := js "1912", cls := js "K", rollNo := js "23" } }).students =
      JSArray.ofList [ada, bond, alan] :=
  ⟨by decide,
   (submit_returns_to_add_mode (sampleState [janeDoe, bond] (some 0) adaForm)
      (by decide) (by decide) (by decide) (by decide)).1,
   by decide⟩

end StudentRegistration
